import Mathlib

/-!
Verification development for the slybot annotation processors
(`slybot/plugins/scrapely_annotations/processors.py`).

The Python module is shallowly embedded: Python values flowing through the
engine become the inductive type `Value`; dictionaries become ordered
association lists with dict update semantics; exceptions become `Except PyErr`;
the external collaborators (scrapely region extractors, the slybot field-type
registry, schema descriptors and the modifier registry) are modelled as
first-order data with executable `run` functions, following the wording of the
module specification where the collaborator code is not available.
-/

set_option maxHeartbeats 1000000

namespace Slybot

/-- A Python dictionary key as used by this module: a string, an integer
(ordinal field numbers), or `None`.  All keys the engine actually produces
are of one of these shapes. -/
inductive PKey where
  | str (s : String)
  | num (n : Nat)
  | none
deriving DecidableEq, Repr

/-- Python truthiness of a key-like value (`if id_:` checks). -/
def PKey.truthy : PKey → Bool
  | .str s => !s.isEmpty
  | .num n => n != 0
  | .none => false

/-- A region identifier value; `region_id` may be a scalar or a list of
previously merged ids (`ItemProcessor.merge` appends the other item's id
list as a single element). -/
inductive RVal where
  | s (v : String)
  | n (v : Nat)
  | noneR
  | l (xs : List RVal)

/-- `arg_to_iter` (scrapy) restricted to region-id values. -/
def rvalIter : RVal → List RVal
  | .l xs => xs
  | .noneR => []
  | v => [v]

mutual

/-- Python value equality on region ids. -/
def RVal.beq : RVal → RVal → Bool
  | .s a, .s b => a == b
  | .n a, .n b => a == b
  | .noneR, .noneR => true
  | .l as, .l bs => RVal.beqL as bs
  | _, _ => false
termination_by structural a => a

/-- Python value equality on lists of region ids. -/
def RVal.beqL : List RVal → List RVal → Bool
  | [], [] => true
  | a :: as, b :: bs => RVal.beq a b && RVal.beqL as bs
  | _, _ => false
termination_by structural a => a

end

/-- The Python exceptions the module can raise.  `missingRequired` is
`MissingRequiredError`, `itemNotValid` is `ItemNotValidError`; the others
stand for the builtin exception types raised by attribute/key/argument
misuse on the modelled paths. -/
inductive PyErr where
  | missingRequired
  | itemNotValid
  | attrError (attr : String)
  | typeError (msg : String)
  | keyError (k : String)
  | indexError
deriving DecidableEq, Repr

/-- Strip markup tags from a string: `w3lib.html.remove_tags`, modelled as
removal of every maximal `<`..`>` span. -/
def removeTagsAux : List Char → Bool → List Char
  | [], _ => []
  | c :: rest, inTag =>
    if inTag then
      (if c = '>' then removeTagsAux rest false else removeTagsAux rest true)
    else if c = '<' then removeTagsAux rest true
    else c :: removeTagsAux rest false

/-- `remove_tags` on a text. -/
def remove_tags (s : String) : String := String.mk (removeTagsAux s.data false)

/-- Does `pat` start the list `l`? -/
def startsL : List Char → List Char → Bool
  | [], _ => true
  | _ :: _, [] => false
  | a :: as, b :: bs => a = b && startsL as bs

/-- `s.startswith(pre)` on strings (written over the character lists so
that it evaluates by reduction). -/
def strStarts (s pre : String) : Bool := startsL pre.data s.data

/-- The characters after the first occurrence of `pat`, or `Option.none`
if `pat` does not occur. -/
def afterSub : List Char → List Char → Option (List Char)
  | [], pat => if pat.isEmpty then some [] else Option.none
  | h :: t, pat =>
    if startsL pat (h :: t) then some ((h :: t).drop pat.length)
    else afterSub t pat

/-- The characters before the first occurrence of `pat`, or `Option.none`
if `pat` does not occur. -/
def beforeSub : List Char → List Char → Option (List Char)
  | [], pat => if pat.isEmpty then some [] else Option.none
  | h :: t, pat =>
    if startsL pat (h :: t) then some []
    else (beforeSub t pat).map (h :: ·)

/-- Modelled from the spec: the boundary-trimming collaborator
(`scrapely.extraction.regionextract.TextRegionDataExtractor(pre, post).extract`,
not part of this repository).  It drops the text up to and including the
`pre` marker and from the `post` marker on, and yields nothing when a
non-empty marker is absent from the text. -/
def textRegionExtract (pre post : String) (t : String) : Option String :=
  let s1 := if pre = "" then some t.data else afterSub t.data pre.data
  match s1 with
  | Option.none => Option.none
  | some cs =>
    if post = "" then some (String.mk cs)
    else (beforeSub cs post.data).map String.mk

/-- The extraction function held by a field descriptor, as first-order
syntax so that descriptor equality is decidable.  `rawHtml` is the default
`raw html` field-type extractor (modelled from the spec: the default
raw-content extractor returns the region unchanged); `other` stands for any
further schema-registered field type; `composed` is the wrapper installed by
`ItemField._load_extractors` via `_compose` when `pre_text`/`post_text`
markers are present. -/
inductive ExtractorFn where
  | rawHtml
  | other (tag : String)
  | composed (f : ExtractorFn) (pre post : String)
deriving DecidableEq, Repr

/-- Run an extraction function on an `HtmlPageRegion` (a page tag plus the
region text), returning the resulting region or nothing.

`composed f pre post` is `_compose(f, TextRegionDataExtractor(pre, post).extract)`
from the source: first the boundary trim, then — only when it yielded a
region — `remove_tags` on that region's text, then the original extractor. -/
def ExtractorFn.run : ExtractorFn → String → String → Option (String × String)
  | .rawHtml, p, t => some (p, t)
  | .other _, p, t => some (p, t)
  | .composed f pre post, p, t =>
    match textRegionExtract pre post t with
    | Option.none => Option.none
    | some t1 => ExtractorFn.run f p (remove_tags t1)

/-- A per-value adaptation hook or modifier callable, as first-order syntax.
Modelled from the spec: the modifier registry maps adaptor names to
callables taking a value and the page context. -/
inductive AdaptFn where
  | identity
  | mark (tag : String)
deriving DecidableEq, Repr

/-- Modelled from the spec: a `SlybotFieldDescriptor` (slybot.item, not under
src/): unique name, display name, an extraction function (`extractor`
attribute) and an optional per-value adaptation hook (`adapt` attribute).
Names are key-like values because synthesized descriptors reuse the raw field
value as both names. -/
structure SlybotFieldDescriptor where
  name : PKey
  description : PKey
  extract : ExtractorFn
  adapt : Option AdaptFn
deriving DecidableEq, Repr

/-- Modelled from the spec: the schema's item-level validity predicate
(`_item_validates`), as first-order data so that it stays executable:
either accept everything, reject everything, or require a set of
unique-named keys to be present. -/
inductive SchemaCheck where
  | acceptAll
  | rejectAll
  | requireKeys (names : List String)
deriving DecidableEq, Repr

/-- Modelled from the spec: the schema registry entry for one item type:
an id, an optional display description, the field-name to descriptor map
(`attribute_map`) and optionally the item-level validity predicate.
`validates = Option.none` models a schema object without an
`_item_validates` attribute. -/
structure Schema where
  id : String
  description : Option String
  attribute_map : List (String × SlybotFieldDescriptor)
  validates : Option SchemaCheck
deriving DecidableEq, Repr

mutual

/-- A Python value as it flows through the processors: `None`, strings,
numbers, booleans, lists, tuples, dictionaries, `HtmlPageRegion`s (a page
tag plus text content; regions are `str` subclasses) and nested
`ItemProcessor` instances. -/
inductive Value where
  | noneV : Value
  | str : String → Value
  | nat : Nat → Value
  | bool : Bool → Value
  | list : List Value → Value
  | tup : List Value → Value
  | dict : List (PKey × Value) → Value
  | region : String → String → Value
  | item : ItemProcessor → Value

/-- An `ItemField` instance: page context, raw `value`, the annotation
metadata dictionary, and the attributes resolved at construction time
(`field`, `attribute`, `selection_mode`, the resolved extractor descriptor
and the adaptor chain). -/
inductive ItemField where
  | mk : (htmlpage : Option String) → (value : Value) →
         (meta : List (PKey × Value)) →
         (fieldn : Value) → (attrV : Value) → (selectionMode : Value) →
         (extractor : SlybotFieldDescriptor) → (adaptors : List AdaptFn) →
         ItemField

/-- A value of the `fields` mapping of an `ItemProcessor`: either a plain
`ItemField` or a nested `ItemProcessor`. -/
inductive FieldEntry where
  | fld : ItemField → FieldEntry
  | item : ItemProcessor → FieldEntry

/-- An `ItemProcessor` instance: the primary annotation's metadata, the
region ids, the optional schema, the modifier registry, the page context,
the sibling annotations (each by its metadata dictionary) and the field
mapping. -/
inductive ItemProcessor where
  | mk : (annotationMeta : List (PKey × Value)) → (regionId : List RVal) →
         (schema : Option Schema) → (modifiers : List (String × AdaptFn)) →
         (htmlpage : Option String) →
         (annotations : List (List (PKey × Value))) →
         (fields : List (PKey × FieldEntry)) →
         ItemProcessor

end

namespace ItemField

def htmlpage : ItemField → Option String | .mk h _ _ _ _ _ _ _ => h
def value : ItemField → Value | .mk _ v _ _ _ _ _ _ => v
def meta : ItemField → List (PKey × Value) | .mk _ _ m _ _ _ _ _ => m
def fieldn : ItemField → Value | .mk _ _ _ f _ _ _ _ => f
def attrV : ItemField → Value | .mk _ _ _ _ a _ _ _ => a
def selectionMode : ItemField → Value | .mk _ _ _ _ _ s _ _ => s
def extractor : ItemField → SlybotFieldDescriptor | .mk _ _ _ _ _ _ e _ => e
def adaptors : ItemField → List AdaptFn | .mk _ _ _ _ _ _ _ a => a

end ItemField

namespace ItemProcessor

def annotationMeta : ItemProcessor → List (PKey × Value) | .mk a _ _ _ _ _ _ => a
def regionId : ItemProcessor → List RVal | .mk _ r _ _ _ _ _ => r
def schema : ItemProcessor → Option Schema | .mk _ _ s _ _ _ _ => s
def modifiers : ItemProcessor → List (String × AdaptFn) | .mk _ _ _ m _ _ _ => m
def htmlpage : ItemProcessor → Option String | .mk _ _ _ _ h _ _ => h
def annotations : ItemProcessor → List (List (PKey × Value)) | .mk _ _ _ _ _ a _ => a
def fields : ItemProcessor → List (PKey × FieldEntry) | .mk _ _ _ _ _ _ f => f

end ItemProcessor

/-! ## Python dictionary and value helpers -/

/-- First value stored under key `q` in an ordered association list
(Python `d.get(q)` / `q in d`). -/
def pget? {α : Type} : List (PKey × α) → PKey → Option α
  | [], _ => Option.none
  | (k, v) :: rest, q => if k = q then some v else pget? rest q

/-- Python dict assignment `d[q] = v`: replace in place when the key is
present, append otherwise. -/
def pset {α : Type} (d : List (PKey × α)) (q : PKey) (v : α) : List (PKey × α) :=
  if (pget? d q).isSome then d.map (fun p => if p.1 = q then (q, v) else p)
  else d ++ [(q, v)]

/-- `meta.get(k)` on a metadata dictionary, `None` when absent. -/
def mget (d : List (PKey × Value)) (k : String) : Value :=
  (pget? d (.str k)).getD .noneV

/-- `k in meta` presence check with the stored value. -/
def mget? (d : List (PKey × Value)) (k : String) : Option Value :=
  pget? d (.str k)

/-- A key as the Python value it denotes (dict iteration yields key objects). -/
def PKey.toValue : PKey → Value
  | .str s => .str s
  | .num n => .nat n
  | .none => .noneV

/-- The dictionary key a Python value hashes to, for the key shapes the
engine produces (strings, numbers, `None`; region keys hash as their text
since `HtmlPageRegion` is a `str` subclass).  Other values never collide
with the engine's keys and are collapsed to the `None` key. -/
def keyOf : Value → PKey
  | .str s => .str s
  | .nat n => .num n
  | .region _ t => .str t
  | _ => .none

/-- Python truthiness. -/
def Value.truthy : Value → Bool
  | .noneV => false
  | .str s => !s.isEmpty
  | .nat n => n != 0
  | .bool b => b
  | .list xs => !xs.isEmpty
  | .tup xs => !xs.isEmpty
  | .dict ps => !ps.isEmpty
  | .region _ t => !t.isEmpty
  | .item _ => true

/-- The string content of a string-like value (`str` or `HtmlPageRegion`);
`hasattr(v, u'startswith')` holds exactly when this is `some`. -/
def Value.strLike : Value → Option String
  | .str s => some s
  | .region _ t => some t
  | _ => Option.none

/-- Is the value a list (Python `isinstance(v, list)`)? -/
def Value.isList : Value → Bool
  | .list _ => true
  | _ => false

/-- `isinstance(v, (dict, ItemProcessor))`. -/
def Value.isDictOrItem : Value → Bool
  | .dict _ => true
  | .item _ => true
  | _ => false

/-- `isinstance(v, (tuple, dict))`. -/
def Value.isTupOrDict : Value → Bool
  | .tup _ => true
  | .dict _ => true
  | _ => false

/-- `arg_to_iter` (scrapy): `None` becomes the empty sequence, lists and
tuples iterate as themselves, and every other value — dictionaries and
strings included — is a single-element sequence. -/
def argToIter : Value → List Value
  | .noneV => []
  | .list xs => xs
  | .tup xs => xs
  | v => [v]

/-- Python iteration over a value: lists and tuples yield their elements,
strings and regions their characters, dictionaries their keys; other
values are not iterable. -/
def iterElems : Value → Option (List Value)
  | .list xs => some xs
  | .tup xs => some xs
  | .str s => some (s.data.map (fun c => .str (String.singleton c)))
  | .region _ t => some (t.data.map (fun c => .str (String.singleton c)))
  | .dict ps => some (ps.map (fun q => q.1.toValue))
  | _ => Option.none

/-- Python `len`. -/
def pyLen : Value → Option Nat
  | .list xs => some xs.length
  | .tup xs => some xs.length
  | .str s => some s.length
  | .region _ t => some t.length
  | .dict ps => some ps.length
  | _ => Option.none

/-- Run an adaptation hook or modifier on a value with the page context.
Modelled from the spec: a callable of `(value, pageContext)`.  `mark t`
prepends a tag to string-like values so that adapted values are observable. -/
def AdaptFn.run : AdaptFn → Option String → Value → Value
  | .identity, _, v => v
  | .mark t, _, .str s => .str (t ++ s)
  | .mark t, _, .region p s => .region p (t ++ s)
  | .mark _, _, v => v

/-- Run the modelled item-level validity predicate on a unique-named record. -/
def SchemaCheck.run : SchemaCheck → List (PKey × Value) → Bool
  | .acceptAll, _ => true
  | .rejectAll, _ => false
  | .requireKeys ns, rec0 => ns.all (fun n => (pget? rec0 (.str n)).isSome)

/-! ## Data normalization (`ItemProcessor._normalize_data`) -/

/-- The outcome of iterable unpacking `fields, value = fields`:
a pair, a `ValueError` (iterable of the wrong length, caught by the
source), or a `TypeError` (not iterable, which propagates). -/
inductive Unpacked where
  | ok (a b : Value)
  | valueE
  | typeE

/-- `fields, value = fields` on a Python value: 2-element lists and tuples
unpack, as do 2-character strings (to their characters) and 2-key
dictionaries (to their keys); other iterables raise `ValueError` and
non-iterables raise `TypeError`. -/
def pyUnpack2 : Value → Unpacked
  | .list [a, b] => .ok a b
  | .tup [a, b] => .ok a b
  | .list _ => .valueE
  | .tup _ => .valueE
  | .str s => match s.data with
    | [a, b] => .ok (.str (String.singleton a)) (.str (String.singleton b))
    | _ => .valueE
  | .region _ t => match t.data with
    | [a, b] => .ok (.str (String.singleton a)) (.str (String.singleton b))
    | _ => .valueE
  | .dict [a, b] => .ok a.1.toValue b.1.toValue
  | .dict _ => .valueE
  | _ => .typeE

/-- A normalized field descriptor as consumed by `_process_fields`:
a nested `ItemProcessor`, an annotation dictionary, or any other raw value
(the legacy bare-field form). -/
inductive NormField where
  | item (ip : ItemProcessor)
  | descr (d : List (PKey × Value))
  | raw (v : Value)

/-- Classify a yielded field descriptor the way `_process_fields` re-checks
it with `isinstance`. -/
def toNorm : Value → NormField
  | .item ip => .item ip
  | .dict ps => .descr ps
  | v => .raw v

/-- `data[0]`, as used by the `_normalize_data` entry check. -/
def head0 : Value → Except PyErr Value
  | .list (x :: _) => .ok x
  | .tup (x :: _) => .ok x
  | .list [] => .error .indexError
  | .tup [] => .error .indexError
  | .str s => match s.data with
    | c :: _ => .ok (.str (String.singleton c))
    | [] => .error .indexError
  | .region _ t => match t.data with
    | c :: _ => .ok (.str (String.singleton c))
    | [] => .error .indexError
  | _ => .error (.typeError "object is not subscriptable")

/-- Items of a dictionary value, each as a 2-tuple, as produced by
`data.items()`. -/
def dictItems (ps : List (PKey × Value)) : List Value :=
  ps.map (fun q => .tup [q.1.toValue, q.2])

/-- One group element through the unpack-and-branch logic of
`_normalize_data`: on successful unpacking the field part is classified
(lists of descriptors fan out over the shared value, bare strings become a
legacy annotation dictionary); on `ValueError` the element's members are
scanned — nested `ItemProcessor`s are yielded with value `None` and
2-length members are queued for a deferred pass.  Returns the yielded
pairs together with the queued members. -/
def normOne (fv : Value) : Except PyErr (List (NormField × Value) × List Value) :=
  match pyUnpack2 fv with
  | .typeE => .error (.typeError "cannot unpack non-iterable object")
  | .valueE =>
    match iterElems fv with
    | Option.none => .error (.typeError "object is not iterable")
    | some elems =>
      elems.foldlM (fun (st : List (NormField × Value) × List Value) f =>
        match f with
        | .item ip => .ok (st.1 ++ [(.item ip, .noneV)], st.2)
        | f =>
          match pyLen f with
          | some 2 => .ok (st.1, st.2 ++ [f])
          | some _ => .ok st
          | Option.none => .error (.typeError "object has no len")) ([], [])
  | .ok fields value =>
    match fields with
    | .list fs => .ok (fs.map (fun f => (toNorm f, value)), [])
    | .str s =>
      .ok ([(.descr [(.str "field", .str s), (.str "attribute", .str "content")],
             value)], [])
    | .region p t =>
      .ok ([(.descr [(.str "field", .region p t), (.str "attribute", .str "content")],
             value)], [])
    | f => .ok ([(toNorm f, value)], [])

/-- The group of pair candidates one element of the data sequence expands
to: values exposing `items()` iterate those, everything else is a
one-element group (`i = (i,)`). -/
def groupOf : Value → List Value
  | .dict ps => dictItems ps
  | v => [v]

/-- Accumulate one group member: collect its yields and queue its deferred
members. -/
def normGroupStep (st : List (NormField × Value) × List Value) (fv : Value) :
    Except PyErr (List (NormField × Value) × List Value) := do
  let (ys, q) ← normOne fv
  pure (st.1 ++ ys, st.2 ++ q)

/-- Process one deferred member (a 2-length member never defers again, so
its queue is dropped). -/
def normQueueStep (ys : List (NormField × Value)) (fv : Value) :
    Except PyErr (List (NormField × Value)) := do
  let (y2, _) ← normOne fv
  pure (ys ++ y2)

/-- Process one element of the data sequence: expand it to a group, run
every group member, then the deferred members. -/
def normItem (acc : List (NormField × Value)) (i : Value) :
    Except PyErr (List (NormField × Value)) := do
  let step ← (groupOf i).foldlM normGroupStep (acc, [])
  step.2.foldlM normQueueStep step.1

/-- `ItemProcessor._normalize_data`: normalize raw extracted data into
`(fieldDescriptor, value)` pairs.  Mappings contribute their key/value
pairs; a truthy sequence whose first element is neither a tuple nor a
mapping is wrapped as a single pair-group; each group element is unpacked
by `normOne`, and members deferred there are processed after the group in
the same way (a deferred member always has length 2, so it never defers
again). -/
def normalizeData (data : Value) : Except PyErr (List (NormField × Value)) := do
  let seq : List Value ←
    match data with
    | .dict ps => pure (dictItems ps)
    | d =>
      if d.truthy then do
        let h ← head0 d
        if h.isTupOrDict then
          match iterElems d with
          | some xs => pure xs
          | Option.none => .error (.typeError "object is not iterable")
        else pure [d]
      else
        match iterElems d with
        | some xs => pure xs
        | Option.none => .error (.typeError "object is not iterable")
  seq.foldlM normItem []

/-! ## Field construction (`ItemField.__init__` and `_load_extractors`) -/

/-- Lookup in a string-keyed registry. -/
def slookup {α : Type} : List (String × α) → String → Option α
  | [], _ => Option.none
  | (k, v) :: rest, q => if k = q then some v else slookup rest q

/-- `schema.attribute_map.get(field)`: a lookup keyed by the raw field
value; regions hash and compare as their text, non-string field values
never match the string-keyed map. -/
def amLookup (fieldn : Value) (am : List (String × SlybotFieldDescriptor)) :
    Option SlybotFieldDescriptor :=
  match fieldn with
  | .str s => slookup am s
  | .region _ t => slookup am t
  | _ => Option.none

/-- The string a value contributes where the source expects marker text
(`meta.get(u'pre_text', u'')`). -/
def Value.asStr : Value → String
  | .str s => s
  | .region _ t => t
  | _ => ""

/-- `ItemField._load_extractors`: resolve the descriptor from the schema's
attribute map, synthesize a default one
(`SlybotFieldDescriptor(field, field, _DEFAULT_EXTRACTOR)`, the default
`raw html` type carrying an identity adaptation hook) when absent, wrap its
extraction function in the `_compose`d boundary trimmer when `pre_text` or
`post_text` markers are present, and collect the adaptor chain by looking
up each name of `meta[u'extractors']` in the modifier registry, silently
skipping unknown names. -/
def loadExtractors (fieldn : Value) (meta : List (PKey × Value))
    (schema : Option Schema) (modifiers : List (String × AdaptFn)) :
    Except PyErr (SlybotFieldDescriptor × List AdaptFn) := do
  let fe0 : Option SlybotFieldDescriptor :=
    match schema with
    | Option.none => Option.none
    | some sch => amLookup fieldn sch.attribute_map
  let fe := fe0.getD ⟨keyOf fieldn, keyOf fieldn, .rawHtml, some .identity⟩
  let fe :=
    if (mget? meta "pre_text").isSome || (mget? meta "post_text").isSome then
      { fe with extract := .composed fe.extract (mget meta "pre_text").asStr
                                               (mget meta "post_text").asStr }
    else fe
  let exv := (mget? meta "extractors").getD (.list [])
  let exv := match exv with
    | .dict ps => (pget? ps (keyOf fieldn)).getD (.list [])
    | v => v
  let names ← match iterElems exv with
    | some xs => pure xs
    | Option.none => .error (.typeError "object is not iterable")
  let adaptors := names.foldl (fun acc n =>
    match n with
    | .str s =>
      match slookup modifiers s with
      | some a => acc ++ [a]
      | Option.none => acc
    | _ => acc) []
  pure (fe, adaptors)

/-- `ItemField.__init__`: store the raw value and metadata, read the
mandatory `field` and `attribute` keys (a missing key raises), default the
selection mode to `auto`, and resolve extractor and adaptors. -/
def ItemField.make (value : Value) (meta : List (PKey × Value))
    (schema : Option Schema := Option.none)
    (modifiers : List (String × AdaptFn) := [])
    (htmlpage : Option String := Option.none) : Except PyErr ItemField := do
  let fieldn ← match mget? meta "field" with
    | some f => pure f
    | Option.none => .error (.keyError "field")
  let attrv ← match mget? meta "attribute" with
    | some a => pure a
    | Option.none => .error (.keyError "attribute")
  let selMode := (mget? meta "selection_mode").getD (.str "auto")
  let (ex, ads) ← loadExtractors fieldn meta schema modifiers
  pure (.mk htmlpage value meta fieldn attrv selMode ex ads)

/-- `ItemField.id`: `meta.get(u'id')`. -/
def ItemField.idV (f : ItemField) : Value := mget f.meta "id"

/-- `ItemField.metadata`: the metadata dictionary without the `name`,
`value` and `schema` keys. -/
def ItemField.metadataPairs (f : ItemField) : List (PKey × Value) :=
  f.meta.filter (fun p =>
    !(p.1 == PKey.str "name" || p.1 == PKey.str "value" || p.1 == PKey.str "schema"))

/-! ## Field processing (`ItemField._process` / `_adapt` / `process`) -/

/-- The first stage of `ItemField._process`: run the extraction function on
every region value (`SlybotFieldDescriptor` always exposes an `extractor`
attribute, so the `hasattr` guard holds) and keep the truthy results. -/
def ItemField.procValues (f : ItemField) : List Value :=
  (argToIter f.value).filterMap (fun v =>
    let v1 := match v with
      | .region p t =>
        match f.extractor.extract.run p t with
        | some (p1, t1) => Value.region p1 t1
        | Option.none => Value.noneV
      | v => v
    if v1.truthy then some v1 else Option.none)

/-- `ItemField._process`: extract region values, then either apply the
descriptor's per-value adaptation hook to the values that are neither
dictionaries nor nested items, or — without a hook — keep the truthy
values. -/
def ItemField.procList (f : ItemField) : List Value :=
  let values := f.procValues
  match f.extractor.adapt with
  | some a =>
    (values.filter (fun x => x.truthy && !x.isDictOrItem)).map (a.run f.htmlpage)
  | Option.none => values.filter Value.truthy

/-- `ItemField._adapt`: run the adaptor chain (each pass skipped once the
value list is empty), then fail with `MissingRequiredError` when the
annotation marks the field required and no value remains. -/
def ItemField.adaptStep (f : ItemField) (values : List Value) :
    Except PyErr (List Value) :=
  let vs := f.adaptors.foldl
    (fun vs a => if vs.isEmpty then vs else vs.map (a.run f.htmlpage)) values
  if (mget f.meta "required").truthy && vs.isEmpty then .error .missingRequired
  else .ok vs

/-- `ItemField.process`: `_adapt(_process())`. -/
def ItemField.processE (f : ItemField) : Except PyErr (List Value) :=
  f.adaptStep f.procList

/-! ## Item construction (`ItemProcessor.__init__` / `_process_fields`) -/

/-- `ItemProcessor.id`: the primary annotation's `id`. -/
def ItemProcessor.idV (ip : ItemProcessor) : Value := mget ip.annotationMeta "id"

/-- `ItemProcessor.name`: the primary annotation's `field`. -/
def ItemProcessor.nameV (ip : ItemProcessor) : Value := mget ip.annotationMeta "field"

/-- `ItemProcessor.descriptor`: the schema's descriptor for this item's
field name (`getattr(self.schema, u'attribute_map', {}).get(self.name)`). -/
def ItemProcessor.descriptor (ip : ItemProcessor) : Option SlybotFieldDescriptor :=
  match ip.schema with
  | Option.none => Option.none
  | some sch => amLookup ip.nameV sch.attribute_map

/-- `ItemProcessor.field`: the descriptor's description, falling back to
the field name. -/
def ItemProcessor.fieldDisplay (ip : ItemProcessor) : Value :=
  match ip.descriptor with
  | some d => d.description.toValue
  | Option.none => ip.nameV

/-- `ItemProcessor._process_fields`: build the field mapping from the
normalized pairs.  Nested items with exactly one plain field whose resolved
extractor is the parent field's descriptor are flattened to that child
field under the child's own id; other nested items are stored under their
own name.  Annotation dictionaries key their field by a truthy explicit id
or the ordinal, and legacy bare descriptors are wrapped into a synthetic
annotation dictionary keyed by the ordinal. -/
def processFields (schema : Option Schema) (modifiers : List (String × AdaptFn))
    (page : Option String) (pairs : List (NormField × Value)) :
    Except PyErr (List (PKey × FieldEntry)) :=
  (pairs.enum).foldlM (fun fields p => do
    let fieldNum := p.1
    let value := p.2.2
    match p.2.1 with
    | .item c =>
      if c.fields.length = 1 then
        match c.fields.head? with
        | some (_, FieldEntry.fld cf) =>
          if c.descriptor = some cf.extractor then
            pure (pset fields (keyOf (mget cf.meta "id")) (.fld cf))
          else pure (pset fields (keyOf c.nameV) (.item c))
        | some (_, FieldEntry.item _) => .error (.attrError "extractor")
        | Option.none => pure (pset fields (keyOf c.nameV) (.item c))
      else pure (pset fields (keyOf c.nameV) (.item c))
    | .descr d =>
      let idv := mget d "id"
      let fid := if idv.truthy then keyOf idv else .num fieldNum
      let f ← ItemField.make value d schema modifiers page
      pure (pset fields fid (.fld f))
    | .raw v =>
      let d := [(PKey.str "field", v), (PKey.str "id", Value.nat fieldNum),
                (PKey.str "attribute", Value.str "content")]
      let f ← ItemField.make value d schema modifiers page
      pure (pset fields (.num fieldNum) (.fld f))) []

/-- `ItemProcessor.__init__`: normalize the raw data and build the field
mapping; region ids are spread through `arg_to_iter`. -/
def ItemProcessor.make (annotationMeta : List (PKey × Value)) (regionId : RVal)
    (data : Value) (annotations : List (List (PKey × Value)))
    (schema : Option Schema := Option.none)
    (modifiers : List (String × AdaptFn) := [])
    (htmlpage : Option String := Option.none) : Except PyErr ItemProcessor := do
  let pairs ← normalizeData data
  let fields ← processFields schema modifiers htmlpage pairs
  pure (.mk annotationMeta (rvalIter regionId) schema modifiers htmlpage
            annotations fields)

/-! ## Dumping (`ItemProcessor._dump` / `_validate` / `dump`)

The `_dump` accumulator `item` is keyed partly by strings (`u'_'`-prefixed
meta fields, `u'_meta'`, `u'_type'`) and partly by the field objects
themselves (`item[field]`); field objects compare by identity, so they are
keyed here by their position in the field mapping. -/

/-- A key of the `_dump` accumulator: a plain string or a field object
(identified by its position in the iteration order). -/
inductive AKey where
  | s (v : String)
  | fobj (i : Nat)
deriving DecidableEq, Repr

/-- Lookup in the accumulator. -/
def aget : List (AKey × Value) → AKey → Option Value
  | [], _ => Option.none
  | (k, v) :: rest, q => if k = q then some v else aget rest q

/-- Dict assignment in the accumulator. -/
def aset (d : List (AKey × Value)) (q : AKey) (v : Value) : List (AKey × Value) :=
  if (aget d q).isSome then d.map (fun p => if p.1 = q then (q, v) else p)
  else d ++ [(q, v)]

/-- The elements of a list value (`extend` operates on lists on both sides
on the reachable paths). -/
def Value.listElems : Value → List Value
  | .list xs => xs
  | _ => []

/-- An `Option String` as the Python value it denotes. -/
def optStr : Option String → Value
  | some s => .str s
  | Option.none => .noneV

/-- Everything `_dump` and `_validate` need to know about one entry of the
field mapping: `field.field` (the name checked for marker prefixes),
whether the entry is a nested item, `field.value` when the attribute
exists, the `field.processed` outcome, `field.id`, `field.metadata`, and
the unique/display names used by `_item_with_names`. -/
structure EntryInfo where
  nameV : Value
  isItem : Bool
  rawValue : Option Value
  processed : Except PyErr Value
  id : PKey
  metaPairs : List (PKey × Value)
  uname : PKey
  udesc : PKey

/-- May a metadata entry be spread into
`dict(value=..., name=..., schema=..., **field.metadata)` without raising?
A non-string key is not a valid keyword, and a key equal to one of the
three fixed keyword names is a duplicate keyword argument — both raise
`TypeError` when the dictionary is constructed. -/
def kwOk : PKey → Bool
  | .str s => !(s == "value" || s == "name" || s == "schema")
  | _ => false

/-- The body of the `_dump` loop for a field with a non-marker name:
compute the processed value, skip it when falsy, store single nested
records as scalars and extend the accumulating list otherwise, and merge
the per-field metadata entry built by
`dict(value=value, name=name, schema=schema_id, **field.metadata)` —
a construction that raises `TypeError` when the metadata holds a
non-string key or one colliding with the three fixed keywords (reachable
for nested items, whose metadata is the unfiltered annotation metadata). -/
def dumpEntryMain (schemaId : Option String) (idx : Nat) (e : EntryInfo)
    (item : List (AKey × Value)) (metaAcc : List (PKey × List (PKey × Value))) :
    Except PyErr (List (AKey × Value) × List (PKey × List (PKey × Value))) :=
  match e.processed with
  | .error er => .error er
  | .ok value =>
    if !value.truthy then .ok (item, metaAcc)
    else
      let item1 :=
        if e.isItem && !value.isList then aset item (.fobj idx) value
        else
          let cur := ((aget item (.fobj idx)).getD (.list [])).listElems
          aset item (.fobj idx) (.list (cur ++ value.listElems))
      if e.metaPairs.all (fun p => kwOk p.1) then
        let entry := (pget? metaAcc e.id).getD []
        let pairs := [(PKey.str "value", value), (PKey.str "name", e.nameV),
                      (PKey.str "schema", optStr schemaId)] ++ e.metaPairs
        let entry1 := pairs.foldl (fun d p => pset d p.1 p.2) entry
        .ok (item1, pset metaAcc e.id entry1)
      else .error (.typeError "invalid dict keyword argument")

/-- One iteration of the `_dump` loop: skip `u'#'`-marked processing
fields, copy the raw value of `u'_'`-marked meta fields (reading
`field.value`, which a nested item does not have), and otherwise run the
main body. -/
def dumpEntryStep (schemaId : Option String) (idx : Nat) (e : EntryInfo)
    (item : List (AKey × Value)) (metaAcc : List (PKey × List (PKey × Value))) :
    Except PyErr (List (AKey × Value) × List (PKey × List (PKey × Value))) :=
  match e.nameV.strLike with
  | some n =>
    if strStarts n "#" then .ok (item, metaAcc)
    else if strStarts n "_" then
      match e.rawValue with
      | some v => .ok (aset item (.s n) v, metaAcc)
      | Option.none => .error (.attrError "value")
    else dumpEntryMain schemaId idx e item metaAcc
  | Option.none => dumpEntryMain schemaId idx e item metaAcc

/-- The `_dump` accumulation loop over the field entries. -/
def dumpLoop (schemaId : Option String) :
    List (Nat × EntryInfo) → List (AKey × Value) →
    List (PKey × List (PKey × Value)) →
    Except PyErr (List (AKey × Value) × List (PKey × List (PKey × Value)))
  | [], item, metaAcc => .ok (item, metaAcc)
  | (idx, e) :: rest, item, metaAcc => do
    let st ← dumpEntryStep schemaId idx e item metaAcc
    dumpLoop schemaId rest st.1 st.2

/-- Python truthiness of an accumulator key (field objects are always
truthy). -/
def akeyTruthy : AKey → Bool
  | .s v => !v.isEmpty
  | .fobj _ => true

/-- The output key an accumulator key maps to in `_item_with_names`:
field objects contribute `getattr(field, attribute)` with `attribute` the
unique (`name`) or display (`description`) name; plain strings stay
themselves. -/
def resolveAKey (entries : List EntryInfo) (useName : Bool) : AKey → PKey
  | .s v => .str v
  | .fobj i =>
    match entries.get? i with
    | some e => if useName then e.uname else e.udesc
    | Option.none => .none

/-- `ItemProcessor._item_with_names`: keep the entries whose key and value
are both truthy, rekeyed by unique or display name. -/
def itemWithNames (entries : List EntryInfo) (useName : Bool)
    (item : List (AKey × Value)) : List (PKey × Value) :=
  item.foldl (fun out p =>
    if akeyTruthy p.1 && p.2.truthy then
      pset out (resolveAKey entries useName p.1) p.2
    else out) []

/-- `ItemProcessor._validate`: rekey by unique names; accept a record
already carrying a `_type` marker unchanged; otherwise consult the schema's
validity predicate when it exists, failing with `ItemNotValidError` on
rejection, and rekey by display names for the final record. -/
def validateStep (entries : List EntryInfo) (check : Option SchemaCheck)
    (item : List (AKey × Value)) : Except PyErr (List (PKey × Value)) :=
  let withNames := itemWithNames entries true item
  if (pget? withNames (.str "_type")).isSome then .ok withNames
  else
    match check with
    | some c =>
      if !c.run withNames then .error .itemNotValid
      else .ok (itemWithNames entries false item)
    | Option.none => .ok (itemWithNames entries false item)

/-- `getattr(self.schema, u'id', None)`. -/
def ipSchemaId (ip : ItemProcessor) : Option String := ip.schema.map (·.id)

/-- `getattr(self.schema, u'description', schema_id)`. -/
def ipTypeOpt (ip : ItemProcessor) : Option String :=
  match ip.schema with
  | Option.none => Option.none
  | some sch =>
    match sch.description with
    | some d => some d
    | Option.none => some sch.id

/-- The schema's validity predicate when the schema exposes one. -/
def ipCheck (ip : ItemProcessor) : Option SchemaCheck := ip.schema.bind (·.validates)

/-- `ItemProcessor._dump` after the per-entry information has been
computed: run the loop, validate, attach `_meta` when requested, and
attach a `_type` marker derived from the schema when none is present. -/
def dumpAssemble (schemaId tyOpt : Option String) (check : Option SchemaCheck)
    (includeMeta : Bool) (entries : List EntryInfo) :
    Except PyErr (List (PKey × Value)) := do
  let st ← dumpLoop schemaId entries.enum [] []
  let r1 ← validateStep entries check st.1
  let r2 :=
    if includeMeta then
      pset r1 (.str "_meta") (.dict (st.2.map (fun p => (p.1, Value.dict p.2))))
    else r1
  let r3 :=
    if (pget? r2 (.str "_type")).isSome then r2
    else
      match tyOpt with
      | some t => if t.isEmpty then r2 else pset r2 (.str "_type") (.str t)
      | Option.none => r2
  pure r3

/-- The exception handler of `ItemProcessor.dump`: `MissingRequiredError`
and `ItemNotValidError` are converted to an empty record; every other
outcome passes through. -/
def dumpCatch (r : Except PyErr (List (PKey × Value))) :
    Except PyErr (List (PKey × Value)) :=
  match r with
  | .error .missingRequired => .ok []
  | .error .itemNotValid => .ok []
  | r => r

mutual

/-- The per-entry information for each entry of a field mapping, in order. -/
def entryInfos : List (PKey × FieldEntry) → List EntryInfo
  | [] => []
  | (_, fe) :: rest => entryInfo1 fe :: entryInfos rest
termination_by structural l => l

/-- The per-entry information of one field entry.  A plain field
contributes its raw name, value and `process()` outcome; a nested item
contributes its display name, no raw value (reading `field.value` raises),
and its own `dump()` as processed value. -/
def entryInfo1 : FieldEntry → EntryInfo
  | .fld f =>
    { nameV := f.fieldn, isItem := false, rawValue := some f.value,
      processed := (f.processE).map Value.list,
      id := keyOf f.idV, metaPairs := f.metadataPairs,
      uname := f.extractor.name, udesc := f.extractor.description }
  | .item c =>
    { nameV := c.fieldDisplay, isItem := true, rawValue := Option.none,
      processed := (dumpCatch (rawDumpE c false)).map Value.dict,
      id := keyOf c.idV, metaPairs := c.annotationMeta,
      uname := keyOf c.nameV, udesc := keyOf c.fieldDisplay }
termination_by structural fe => fe

/-- `ItemProcessor._dump`. -/
def rawDumpE : ItemProcessor → Bool → Except PyErr (List (PKey × Value))
  | ip@(.mk _ _ _ _ _ _ flds), includeMeta =>
    dumpAssemble (ipSchemaId ip) (ipTypeOpt ip) (ipCheck ip) includeMeta
      (entryInfos flds)
termination_by structural ip _ => ip

end

/-- `ItemProcessor.dump`: `_dump` with `MissingRequiredError` and
`ItemNotValidError` caught and converted to an empty record. -/
def ipDumpE (ip : ItemProcessor) (includeMeta : Bool) :
    Except PyErr (List (PKey × Value)) :=
  dumpCatch (rawDumpE ip includeMeta)

/-- `ItemProcessor.dump` with its default argument. -/
def ItemProcessor.dumpE (ip : ItemProcessor) (includeMeta : Bool := false) :
    Except PyErr (List (PKey × Value)) :=
  ipDumpE ip includeMeta

/-- One call of `dump` as a state transition.  The source method only
reads `self` — it assigns no attribute of the processor — so the state
component of the transition is the unchanged instance. -/
def dumpStep (ip : ItemProcessor) (includeMeta : Bool) :
    Except PyErr (List (PKey × Value)) × ItemProcessor :=
  (ipDumpE ip includeMeta, ip)

/-! ## Merging (`ItemField.merge` / `ItemProcessor.merge`) -/

/-- `ItemField.merge`: try `self.value.extend(other.value)` — a stored list
extends with the other's iterated elements (a non-iterable right side
raises `TypeError`), while any other stored value has no `extend` attribute
and is replaced wholesale by the other's raw value. -/
def fieldMergeE : ItemField → ItemField → Except PyErr ItemField
  | .mk h (.list xs) m fn av sm ex ads, b =>
    match iterElems b.value with
    | some es => .ok (.mk h (.list (xs ++ es)) m fn av sm ex ads)
    | Option.none => .error (.typeError "object is not iterable")
  | .mk h _ m fn av sm ex ads, b => .ok (.mk h b.value m fn av sm ex ads)

/-- Set membership of a key (`id_ in missing_ids`). -/
def pkMem : List PKey → PKey → Bool
  | [], _ => false
  | x :: xs, k => if x = k then true else pkMem xs k

/-- The annotation-merging step of `ItemProcessor.merge`: collect the other
item's annotation ids that are missing from self's, then append exactly the
annotations of `other` whose id is truthy and among the missing ids. -/
def mergeAnnotations (selfAnns otherAnns : List (List (PKey × Value))) :
    List (List (PKey × Value)) :=
  selfAnns ++ otherAnns.filter (fun a =>
    (keyOf (mget a "id")).truthy &&
    pkMem ((otherAnns.map (fun a2 => keyOf (mget a2 "id"))).filter
        (fun k => !pkMem (selfAnns.map (fun a2 => keyOf (mget a2 "id"))) k))
      (keyOf (mget a "id")))

/-- The region-merging step of `ItemProcessor.merge`: append the other
item's id list as one element unless already present. -/
def mergeRegions (selfRid otherRid : List RVal) : List RVal :=
  if selfRid.any (fun r => RVal.beq r (.l otherRid)) then selfRid
  else selfRid ++ [.l otherRid]

mutual

/-- Merge two values of the field mapping: plain fields merge their
values, nested items merge recursively, and the mixed cases raise — a
field merging an item retries `self.value = other.value` on a valueless
`ItemProcessor`, an item merging a field reads the missing
`other.region_id`. -/
def mergeEntry : FieldEntry → FieldEntry → Except PyErr FieldEntry
  | .fld a, .fld b => (fieldMergeE a b).map .fld
  | .fld _, .item _ => .error (.attrError "value")
  | .item _, .fld _ => .error (.attrError "region_id")
  | .item a, .item b => (mergeIP a b).map .item
termination_by structural _ b => b

/-- The field-merging loop of `ItemProcessor.merge` over the other item's
field mapping: ids already present merge in place, new ids are adopted. -/
def mergeFieldsList (selfFields : List (PKey × FieldEntry)) :
    List (PKey × FieldEntry) → Except PyErr (List (PKey × FieldEntry))
  | [] => .ok selfFields
  | (k, f) :: rest => do
    let sf ←
      match pget? selfFields k with
      | some e => do
        let m ← mergeEntry e f
        pure (pset selfFields k m)
      | Option.none => pure (selfFields ++ [(k, f)])
    mergeFieldsList sf rest
termination_by structural l => l

/-- `ItemProcessor.merge`: merge regions, annotations and fields of the
other item into this one. -/
def mergeIP : ItemProcessor → ItemProcessor → Except PyErr ItemProcessor
  | .mk am rid sch mods page anns flds,
    .mk _ rid2 _ _ _ anns2 flds2 => do
    let rid1 := mergeRegions rid rid2
    let anns1 := mergeAnnotations anns anns2
    let flds1 ← mergeFieldsList flds flds2
    pure (.mk am rid1 sch mods page anns1 flds1)
termination_by structural _ b => b

end

/-! ## The selector pass (`ItemProcessor.process` / `_process_selectors`) -/

/-- Modelled from the spec: the query-capable selector collaborator
(`css`/`xpath` queries over the document).  The engine never reaches an
actual query on the modelled paths (see the `_process_selectors` call
below), so the query functions are opaque node producers. -/
structure Selector where
  cssq : String → List String
  xpathq : String → List String

/-- Replace the field mapping of an instance. -/
def ItemProcessor.withFields : ItemProcessor → List (PKey × FieldEntry) → ItemProcessor
  | .mk am rid sch mods page anns _, flds => .mk am rid sch mods page anns flds

/-- The `TypeError` raised by `_process_selectors`: the source calls
`self._process_css_and_xpath(chain(selector_annotations,
field_annotations))`, but `_process_css_and_xpath(self, annotations,
selector)` requires a second positional argument. -/
def cssXpathMissingArg : PyErr :=
  .typeError "_process_css_and_xpath missing 1 required positional argument: selector"

mutual

/-- The nested-item pass of `_process_selectors`: every nested item field
is re-processed with the selector (`field.process(selector)`) and then
wrapped via `ItemField(field.dump(), field.annotation.meta)` — but
`Annotation` objects carry `metadata`, not `meta`, so reaching the wrap
raises `AttributeError`; in practice the recursive `process` call raises
first (see `processE`). -/
def selLoop (sel : Selector) : List (PKey × FieldEntry) →
    Except PyErr (List (PKey × FieldEntry))
  | [] => .ok []
  | (_, FieldEntry.item c) :: _ => do
    let _ ← processE c (some sel) false
    let _ := ipDumpE c false
    .error (.attrError "meta")
  | (k, fe) :: rest => do
    let r ← selLoop sel rest
    .ok ((k, fe) :: r)
termination_by structural l => l

/-- `ItemProcessor.process`: run `_process_selectors` when a selector is
given, then dump.  The selector pass runs the nested-item loop and then
unconditionally raises `cssXpathMissingArg` (see its definition), so the
updated field mapping never materializes; the dead continuation dumps the
instance with the fields the pass would have installed. -/
def processE : ItemProcessor → Option Selector → Bool →
    Except PyErr (List (PKey × Value))
  | ip, Option.none, m => ipDumpE ip m
  | .mk am rid sch mods page anns flds, some sel, m => do
    let _ ← selLoop sel flds
    let flds1 ← (Except.error cssXpathMissingArg :
      Except PyErr (List (PKey × FieldEntry)))
    ipDumpE (.mk am rid sch mods page anns flds1) m
termination_by structural ip => ip

end

/-! ## Statement-level predicates and concrete instances -/

/-- The composition exactly as the specification sentence orders it:
strip markup from the collaborator-extracted region text, then apply the
boundary-trimming extractor configured with the markers, then the original
extractor.  Stated only to compare with the source's `_compose` order. -/
def specOrderRun (f : ExtractorFn) (pre post : String) (p t : String) :
    Option (String × String) :=
  match textRegionExtract pre post (remove_tags t) with
  | Option.none => Option.none
  | some t1 => f.run p t1

/-- Is the value's name neither a `u'#'` processing marker nor a `u'_'`
meta-channel marker (non-string-like names have neither)? -/
def notMarker (v : Value) : Bool :=
  match v.strLike with
  | some n => !strStarts n "#" && !strStarts n "_"
  | Option.none => true

/-- The dump-loop entry of a required field whose processing came up
empty: an ordinary (non-marker) name and a `MissingRequiredError`. -/
def infoTriggers (e : EntryInfo) : Prop :=
  notMarker e.nameV = true ∧ e.processed = Except.error .missingRequired

/-- A dump-loop entry that can only fail recoverably: a `u'_'`-marked
entry owns a raw value (so the meta-channel copy cannot raise), the
processing outcome fails only with `MissingRequiredError`, and the
metadata spreads into the per-field `dict(...)` without a keyword clash. -/
def infoSafe (e : EntryInfo) : Prop :=
  (∀ n, e.nameV.strLike = some n → strStarts n "_" = true → strStarts n "#" = false →
    e.rawValue.isSome = true) ∧
  (∀ er, e.processed = Except.error er → er = PyErr.missingRequired) ∧
  e.metaPairs.all (fun p => kwOk p.1) = true

/-- A field entry that triggers the required-field failure: a plain field
with an ordinary name, marked required, holding the raw value `""`. -/
def triggersMR : FieldEntry → Prop
  | .fld f => notMarker f.fieldn = true ∧ (mget f.meta "required").truthy = true ∧
      f.value = .str ""
  | .item _ => False

/-- A field entry whose dump-loop step cannot fail unrecoverably: a plain
field must spread its filtered metadata into the per-field `dict(...)`
without a keyword clash (string keys only — the colliding names are
already filtered by `ItemField.metadata`); a nested item must not sit on
the `u'_'` meta channel, its own dump must succeed, and its unfiltered
annotation metadata must spread without a keyword clash. -/
def safeEntry : FieldEntry → Prop
  | .fld f => f.metadataPairs.all (fun p => kwOk p.1) = true
  | .item c =>
    (∀ n, c.fieldDisplay.strLike = some n → strStarts n "_" = true →
      strStarts n "#" = false → False) ∧
    (∃ r, ipDumpE c false = Except.ok r) ∧
    c.annotationMeta.all (fun p => kwOk p.1) = true

/-- Is the key a string? -/
def PKey.isStr : PKey → Bool
  | .str _ => true
  | _ => false

/-- An inert processor instance, used only to read off computed results. -/
def emptyIP : ItemProcessor := .mk [] [] Option.none [] Option.none [] []

/-- An inert field instance, used only to read off computed results. -/
def emptyField : ItemField :=
  .mk Option.none .noneV [] .noneV .noneV .noneV ⟨.none, .none, .rawHtml, Option.none⟩ []

/-- The `Except` payload, defaulting to an inert value. -/
def exGet {α : Type} (d : α) : Except PyErr α → α
  | .ok a => a
  | .error _ => d

/-- A required `price` annotation dictionary. -/
def exMetaReq : List (PKey × Value) :=
  [(.str "field", .str "price"), (.str "id", .str "f1"),
   (.str "attribute", .str "content"), (.str "required", .bool true)]

/-- A primary annotation's metadata. -/
def exAnn : List (PKey × Value) := [(.str "id", .str "ann1")]

/-- An item whose single required field extracted the empty string. -/
def exReq : ItemProcessor :=
  exGet emptyIP (ItemProcessor.make exAnn (.s "r1")
    (.list [.tup [.dict exMetaReq, .str ""]]) [])

/-- An item contributing the non-empty value `10.99` under the same field
id. -/
def exReqB : ItemProcessor :=
  exGet emptyIP (ItemProcessor.make exAnn (.s "r2")
    (.list [.tup [.dict exMetaReq, .str "10.99"]]) [])

/-- The merge of `exReq` and `exReqB`. -/
def exReqM : ItemProcessor := exGet emptyIP (mergeIP exReq exReqB)

/-- An item whose schema rejects every record. -/
def exInvalid : ItemProcessor :=
  .mk [] [] (some ⟨"s1", Option.none, [], some .rejectAll⟩) [] Option.none [] []

/-- A nested item named on the `u'_'` meta channel (two plain fields, so
it is not flattened away). -/
def exChild : ItemProcessor :=
  exGet emptyIP (ItemProcessor.make [(.str "field", .str "_x"), (.str "id", .str "c1")]
    (.s "rc")
    (.list [.tup [.dict [(.str "field", .str "t"), (.str "id", .str "g1"),
                         (.str "attribute", .str "content")], .str "v"]]) [])

/-- A parent item owning `exChild` as a nested field. -/
def exParent : ItemProcessor :=
  exGet emptyIP (ItemProcessor.make exAnn (.s "rp") (.list [.item exChild]) [])

/-- A required-and-empty field hidden behind a `u'#'` processing name,
next to an ordinary `price` field. -/
def exHashData : Value :=
  .list [.tup [.dict [(.str "field", .str "#x"), (.str "id", .str "h1"),
                      (.str "attribute", .str "content"),
                      (.str "required", .bool true)], .str ""],
         .tup [.dict [(.str "field", .str "price"), (.str "id", .str "p0"),
                      (.str "attribute", .str "content")], .str "10"]]

/-- The item built from `exHashData`. -/
def exHash : ItemProcessor :=
  exGet emptyIP (ItemProcessor.make exAnn (.s "rh") exHashData [])

/-- The `price` annotation with a `pre_text` boundary marker, as in the
specification's example. -/
def exMetaPre : List (PKey × Value) :=
  [(.str "field", .str "price"), (.str "attribute", .str "content"),
   (.str "pre_text", .str "Price: $"), (.str "required", .bool true)]

/-- The resolved field of the boundary-marker example. -/
def exPreField : ItemField :=
  exGet emptyField (ItemField.make (.region "pg" "Price: $10 only") exMetaPre)

/-- A plain annotation for a field whose raw values mix a mapping with a
string. -/
def exMetaMix : List (PKey × Value) :=
  [(.str "field", .str "a"), (.str "attribute", .str "content")]

/-- The resolved field holding a mapping and a string. -/
def exMixField : ItemField :=
  exGet emptyField (ItemField.make
    (.list [.dict [(.str "k", .str "v")], .str "x"]) exMetaMix)

/-- A schema descriptor for `price`. -/
def exDescr : SlybotFieldDescriptor :=
  ⟨.str "price", .str "Price", .rawHtml, some .identity⟩

/-- A schema mapping `price` to `exDescr`. -/
def exSchema : Schema := ⟨"sch1", Option.none, [("price", exDescr)], Option.none⟩

/-- A single-field nested item whose field resolves through `exSchema`,
so its extractor is the parent's descriptor. -/
def exNested : ItemProcessor :=
  exGet emptyIP (ItemProcessor.make
    [(.str "field", .str "price"), (.str "id", .str "np")] (.s "rn")
    (.list [.tup [.dict [(.str "field", .str "price"), (.str "id", .str "n1"),
                         (.str "attribute", .str "content")], .str "9"]])
    [] (some exSchema))

/-- The same nested item resolved without a schema, so the parent
descriptor differs. -/
def exNestedPlain : ItemProcessor :=
  exGet emptyIP (ItemProcessor.make
    [(.str "field", .str "price"), (.str "id", .str "np")] (.s "rn")
    (.list [.tup [.dict [(.str "field", .str "price"), (.str "id", .str "n1"),
                         (.str "attribute", .str "content")], .str "9"]])
    [])

/-- A two-field nested item. -/
def exNestedTwo : ItemProcessor :=
  exGet emptyIP (ItemProcessor.make
    [(.str "field", .str "pair"), (.str "id", .str "np2")] (.s "rn")
    (.list [.tup [.dict [(.str "field", .str "a"), (.str "id", .str "w1"),
                         (.str "attribute", .str "content")], .str "1"],
            .tup [.dict [(.str "field", .str "b"), (.str "id", .str "w2"),
                         (.str "attribute", .str "content")], .str "2"]])
    [])

/-- An item owning only a `title` field. -/
def exTitle : ItemProcessor :=
  exGet emptyIP (ItemProcessor.make exAnn (.s "r1")
    (.list [.tup [.dict [(.str "field", .str "title"), (.str "id", .str "t1"),
                         (.str "attribute", .str "content")], .str "Acme"]]) [])

/-- An item owning only a `price` field. -/
def exPrice : ItemProcessor :=
  exGet emptyIP (ItemProcessor.make exAnn (.s "r2")
    (.list [.tup [.dict [(.str "field", .str "price"), (.str "id", .str "p1"),
                         (.str "attribute", .str "content")], .str "10"]]) [])

/-- The merge of the two disjoint items. -/
def exUnion : ItemProcessor := exGet emptyIP (mergeIP exTitle exPrice)

/-- An item carrying one annotation with id `a1`. -/
def exMrgA : ItemProcessor :=
  .mk [] [] Option.none [] Option.none [[(.str "id", .str "a1")]] []

/-- An item carrying annotations with ids `a1`, `b1` and a falsy id. -/
def exMrgB : ItemProcessor :=
  .mk [] [.s "rb"] Option.none [] Option.none
    [[(.str "id", .str "a1")], [(.str "id", .str "b1")], [(.str "kind", .str "x")]] []

/-- The merge of the two annotation-carrying items. -/
def exMrgM : ItemProcessor := exGet emptyIP (mergeIP exMrgA exMrgB)

/-- A trivial query-capable selector. -/
def exSelector : Selector := ⟨fun _ => [], fun _ => []⟩

/-- A directly-built required field holding the empty string. -/
def wF : ItemField := exGet emptyField (ItemField.make (.str "") exMetaReq)

/-- A directly-built item owning only `wF`. -/
def wIP : ItemProcessor :=
  .mk exAnn [] Option.none [] Option.none [] [(.str "f1", .fld wF)]

/-- A nested item whose annotation metadata already carries a `name` key —
legal as a Python dictionary, but clashing with the fixed keywords of the
per-field metadata `dict(...)` built during `_dump`. -/
def exKwChild : ItemProcessor :=
  exGet emptyIP (ItemProcessor.make
    [(.str "field", .str "nest"), (.str "id", .str "kc"),
     (.str "name", .str "clash")]
    (.s "rk")
    (.list [.tup [.dict [(.str "field", .str "t"), (.str "id", .str "kt"),
                         (.str "attribute", .str "content")], .str "v"]]) [])

/-- A parent item owning `exKwChild` as a nested field. -/
def exKwParent : ItemProcessor :=
  exGet emptyIP (ItemProcessor.make exAnn (.s "rkp") (.list [.item exKwChild]) [])

/-! ## Supporting lemmas on the dictionary model -/

theorem pget?_cons {α : Type} (a : PKey) (b : α) (tl : List (PKey × α)) (k : PKey) :
    pget? ((a, b) :: tl) k = if a = k then some b else pget? tl k := rfl

theorem pget?_append_single {α : Type} (d : List (PKey × α)) (q k : PKey) (v : α) :
    pget? (d ++ [(q, v)]) k =
      match pget? d k with
      | some x => some x
      | Option.none => if q = k then some v else Option.none := by
  induction d with
  | nil => simp [pget?]
  | cons hd tl ih =>
    obtain ⟨a, b⟩ := hd
    by_cases hak : a = k
    · simp [pget?_cons, hak]
    · simpa [pget?_cons, hak] using ih

theorem pget?_replace {α : Type} (d : List (PKey × α)) (q k : PKey) (v : α) :
    pget? (d.map fun p => if p.1 = q then (q, v) else p) k =
      if k = q then (if (pget? d q).isSome then some v else Option.none)
      else pget? d k := by
  induction d with
  | nil => by_cases hk : k = q <;> simp [pget?, hk]
  | cons hd tl ih =>
    obtain ⟨a, b⟩ := hd
    rw [List.map_cons]
    by_cases haq : a = q
    · rw [if_pos (show (a, b).1 = q from haq)]
      by_cases hkq : k = q
      · rw [pget?_cons, if_pos (show q = k from hkq.symm), if_pos hkq,
            pget?_cons, if_pos haq]
        simp
      · rw [pget?_cons, if_neg (show ¬ q = k from fun h => hkq h.symm), ih,
            if_neg hkq, if_neg hkq, pget?_cons,
            if_neg (show ¬ a = k from fun h => hkq (h ▸ haq))]
    · rw [if_neg (show ¬ (a, b).1 = q from haq)]
      by_cases hka : a = k
      · have hkq : ¬ k = q := fun h => haq (by rw [hka, h])
        rw [pget?_cons, if_pos hka, if_neg hkq, pget?_cons, if_pos hka]
      · rw [pget?_cons, if_neg hka, ih, pget?_cons, if_neg haq,
            pget?_cons, if_neg hka]

theorem pget?_pset {α : Type} (d : List (PKey × α)) (q k : PKey) (v : α) :
    pget? (pset d q v) k = if k = q then some v else pget? d k := by
  unfold pset
  by_cases hq : (pget? d q).isSome
  · rw [if_pos hq, pget?_replace]
    by_cases hk : k = q
    · simp [hk, hq]
    · simp [hk]
  · rw [if_neg hq, pget?_append_single]
    by_cases hk : k = q
    · subst hk
      have hnone : pget? d k = Option.none := by
        cases h : pget? d k with
        | none => rfl
        | some x => rw [h] at hq; simp at hq
      simp [hnone]
    · cases h : pget? d k with
      | none => simp [h, if_neg hk, if_neg (show ¬q = k from fun hh => hk hh.symm)]
      | some x => simp [h, if_neg hk]

theorem pkMem_iff (l : List PKey) (k : PKey) : pkMem l k = true ↔ k ∈ l := by
  induction l with
  | nil => simp [pkMem]
  | cons x xs ih =>
    by_cases h : x = k
    · subst h; simp [pkMem]
    · rw [show pkMem (x :: xs) k = pkMem xs k from by simp [pkMem, h]]
      rw [ih, List.mem_cons]
      constructor
      · exact Or.inr
      · rintro (rfl | hm)
        · exact absurd rfl h
        · exact hm

/-! ## Claim C3 -/

/-- C3: calling `dump()` twice in succession on the same item with no
intervening merge and the same `include_meta` argument yields identical
records, and the first dump leaves the item's state unchanged — `dump`
only reads the instance. -/
theorem C3_dump_idempotent (ip : ItemProcessor) (includeMeta : Bool) :
    (dumpStep ip includeMeta).1 = (dumpStep (dumpStep ip includeMeta).2 includeMeta).1 ∧
    (dumpStep ip includeMeta).2 = ip :=
  ⟨rfl, rfl⟩

/-! ## Claim C1 -/

/-- C1 counterexample: a reachable item — a parent holding a nested item
whose display name sits on the `u'_'` meta channel — whose `dump()` raises
an `AttributeError` (reading `field.value` on an `ItemProcessor`), so it is
not the case that no condition other than the two recoverable errors makes
`dump()` raise. -/
theorem C1_counterexample :
    ItemProcessor.make exAnn (.s "rp") (.list [.item exChild]) [] = Except.ok exParent ∧
    ipDumpE exParent false = Except.error (.attrError "value") ∧
    (∀ r, ipDumpE exParent false ≠ Except.ok r) := by
  refine ⟨rfl, rfl, ?_⟩
  intro r h
  rw [show ipDumpE exParent false = Except.error (.attrError "value") from rfl] at h
  exact Except.noConfusion h

/-- C1 (amended): `dump()` never propagates `MissingRequiredError` or
`ItemNotValidError` — whenever `_dump` fails with either, `dump` returns
the empty record, and a successful `_dump` passes through unchanged.
(Other failures, such as the `AttributeError` of `C1_counterexample`, do
propagate.) -/
theorem C1_dump_catches_recoverable (ip : ItemProcessor) (m : Bool) :
    (rawDumpE ip m = Except.error .missingRequired → ipDumpE ip m = Except.ok []) ∧
    (rawDumpE ip m = Except.error .itemNotValid → ipDumpE ip m = Except.ok []) ∧
    ipDumpE ip m ≠ Except.error PyErr.missingRequired ∧
    ipDumpE ip m ≠ Except.error PyErr.itemNotValid ∧
    (∀ r, rawDumpE ip m = Except.ok r → ipDumpE ip m = Except.ok r) := by
  unfold ipDumpE dumpCatch
  cases h : rawDumpE ip m with
  | ok r => simp
  | error e => cases e <;> simp

/-- Witness for C1: the recoverable failures of the required-field item and
of the schema-rejected item are both converted to the empty record. -/
theorem C1_dump_catches_recoverable_witness :
    ipDumpE exReq false = Except.ok [] ∧ ipDumpE exInvalid false = Except.ok [] ∧
    ipDumpE exReq false ≠ Except.error PyErr.missingRequired :=
  ⟨(C1_dump_catches_recoverable exReq false).1 rfl,
   (C1_dump_catches_recoverable exInvalid false).2.1 rfl,
   (C1_dump_catches_recoverable exReq false).2.2.1⟩

/-! ## Claim C9 -/

/-- C9: calling `process(selector)` with a query-capable selector never
resolves any selector annotation — the call always raises, because
`_process_selectors` invokes `_process_css_and_xpath` without its required
`selector` argument; on a selector-free item the raised error is exactly
that `TypeError`. -/
theorem C9_selector_pass_crashes :
    (∀ (ip : ItemProcessor) (sel : Selector) (m : Bool),
      ∃ e, processE ip (some sel) m = Except.error e) ∧
    processE exHash (some exSelector) false = Except.error cssXpathMissingArg := by
  constructor
  · intro ip sel m
    obtain ⟨am, rid, sch, mods, page, anns, flds⟩ := ip
    cases hs : selLoop sel flds with
    | error e => exact ⟨e, by simp [processE, hs, Bind.bind, Except.bind]⟩
    | ok r => exact ⟨cssXpathMissingArg, by simp [processE, hs, Bind.bind, Except.bind]⟩
  · rfl

/-! ## Claim C10 -/

theorem mergeAnnotations_eq (xs ys : List (List (PKey × Value))) :
    mergeAnnotations xs ys = xs ++ ys.filter (fun a =>
      (keyOf (mget a "id")).truthy &&
      !pkMem (xs.map (fun a2 => keyOf (mget a2 "id"))) (keyOf (mget a "id"))) := by
  unfold mergeAnnotations
  congr 1
  apply List.filter_congr
  intro a ha
  congr 1
  have hk : keyOf (mget a "id") ∈ ys.map (fun a2 => keyOf (mget a2 "id")) :=
    List.mem_map_of_mem _ ha
  rw [Bool.eq_iff_iff]
  constructor
  · intro hmem
    have := (pkMem_iff _ _).1 hmem
    have := (List.mem_filter).1 this
    exact this.2
  · intro hnot
    exact (pkMem_iff _ _).2 ((List.mem_filter).2 ⟨hk, hnot⟩)

/-- C10: `merge` copies an annotation of the other item into this one
exactly when its id is truthy and not already among this item's annotation
ids; in particular an annotation with an absent or otherwise falsy id is
never copied. -/
theorem C10_merge_annotation_copying (A B M : ItemProcessor)
    (h : mergeIP A B = Except.ok M) :
    M.annotations = A.annotations ++ B.annotations.filter (fun a =>
      (keyOf (mget a "id")).truthy &&
      !pkMem (A.annotations.map (fun a2 => keyOf (mget a2 "id")))
        (keyOf (mget a "id"))) := by
  obtain ⟨am, rid, sch, mods, page, anns, flds⟩ := A
  obtain ⟨am2, rid2, sch2, mods2, page2, anns2, flds2⟩ := B
  rw [mergeIP] at h
  cases hf : mergeFieldsList flds flds2 with
  | error e => simp [hf, Bind.bind, Except.bind] at h
  | ok flds1 =>
    simp only [hf, Bind.bind, Except.bind, pure, Except.pure, Except.ok.injEq] at h
    subst h
    simpa [ItemProcessor.annotations] using mergeAnnotations_eq anns anns2

/-- Witness for C10: merging the two concrete annotation-carrying items
keeps the `a1` duplicate and the falsy-id annotation out while copying
`b1`. -/
theorem C10_merge_annotation_copying_witness :
    exMrgM.annotations = exMrgA.annotations ++ exMrgB.annotations.filter (fun a =>
      (keyOf (mget a "id")).truthy &&
      !pkMem (exMrgA.annotations.map (fun a2 => keyOf (mget a2 "id")))
        (keyOf (mget a "id"))) :=
  C10_merge_annotation_copying exMrgA exMrgB exMrgM rfl

/-! ## Claim C5 -/

theorem adaptRun_not_dictOrItem (a : AdaptFn) (p : Option String) (v : Value)
    (h : v.isDictOrItem = false) : (a.run p v).isDictOrItem = false := by
  cases a with
  | identity => simpa [AdaptFn.run] using h
  | mark t => cases v <;> simp_all [AdaptFn.run, Value.isDictOrItem]

/-- C5 counterexample: a field holding a raw mapping next to a string,
resolved with the default descriptor (which exposes an adaptation hook),
drops the mapping from its processed output instead of passing it through
unmodified. -/
theorem C5_counterexample :
    ItemField.make (.list [.dict [(.str "k", .str "v")], .str "x"]) exMetaMix
      = Except.ok exMixField ∧
    exMixField.extractor.adapt = some .identity ∧
    exMixField.procList = [.str "x"] ∧
    Value.dict [(.str "k", .str "v")] ∉ exMixField.procList := by
  refine ⟨rfl, rfl, rfl, ?_⟩
  rw [show exMixField.procList = [Value.str "x"] from rfl]
  simp

/-- C5 (amended): when the resolved extractor exposes a per-value
adaptation hook, `_process` applies the hook to every non-empty value that
is neither a mapping nor a nested item, and every mapping or nested item
is excluded from the processed output (discarded, not passed through);
without a hook only falsy values are filtered. -/
theorem C5_adapt_hook_drops_nested (f : ItemField) :
    (∀ a, f.extractor.adapt = some a →
      f.procList = (f.procValues.filter (fun x => x.truthy && !x.isDictOrItem)).map
        (a.run f.htmlpage) ∧
      ∀ v, v.isDictOrItem = true → v ∉ f.procList) ∧
    (f.extractor.adapt = Option.none →
      f.procList = f.procValues.filter Value.truthy) := by
  constructor
  · intro a ha
    have hpl : f.procList = (f.procValues.filter
        (fun x => x.truthy && !x.isDictOrItem)).map (a.run f.htmlpage) := by
      simp [ItemField.procList, ha]
    refine ⟨hpl, ?_⟩
    intro v hv hmem
    rw [hpl] at hmem
    obtain ⟨x, hx, hxv⟩ := List.mem_map.1 hmem
    have hxf := (List.mem_filter.1 hx).2
    have hxn : x.isDictOrItem = false := by
      cases hdi : x.isDictOrItem
      · rfl
      · rw [hdi] at hxf; simp at hxf
    have := adaptRun_not_dictOrItem a f.htmlpage x hxn
    rw [hxv, hv] at this
    exact Bool.noConfusion this
  · intro ha
    simp [ItemField.procList, ha]

/-- Witness for C5: the mixed-value field with the identity hook. -/
theorem C5_adapt_hook_drops_nested_witness :
    exMixField.procList =
      (exMixField.procValues.filter (fun x => x.truthy && !x.isDictOrItem)).map
        (AdaptFn.identity.run exMixField.htmlpage) ∧
    Value.dict [(.str "k", .str "v")] ∉ exMixField.procList :=
  ⟨((C5_adapt_hook_drops_nested exMixField).1 .identity rfl).1,
   ((C5_adapt_hook_drops_nested exMixField).1 .identity rfl).2 _ rfl⟩

/-! ## Claim C6 -/

/-- C6 counterexample: the composed extractor built by the source boundary
trims the raw region text first and strips markup afterwards; the order
stated by the claim (strip markup, then boundary-trim, then the original
extractor) yields a value on a marker interrupted by a tag where the code
yields none. -/
theorem C6_counterexample :
    (ExtractorFn.composed .rawHtml "Price: $" "").run "pg" "Price: <b>$10</b>"
      = Option.none ∧
    specOrderRun .rawHtml "Price: $" "" "pg" "Price: <b>$10</b>" = some ("pg", "10") :=
  ⟨rfl, rfl⟩

/-- C6 (amended): for annotations carrying `pre_text`/`post_text` markers
the resolved extractor is the composition that first applies the
boundary-trimming extractor to the region, then — only when it yielded a
region — strips markup from the trimmed text, then applies the original
extractor; the composition yields no value whenever the boundary trim
yields nothing.  For the annotation
`{field: price, attribute: content, pre_text: "Price: $", required}` and
raw extracted text `Price: $10 only`, the resolved field's processed value
before any further adaptors is the region `10 only`. -/
theorem C6_composed_extractor (f : ExtractorFn) (pre post p t : String) :
    (textRegionExtract pre post t = Option.none →
      (ExtractorFn.composed f pre post).run p t = Option.none) ∧
    (∀ t1, textRegionExtract pre post t = some t1 →
      (ExtractorFn.composed f pre post).run p t = f.run p (remove_tags t1)) ∧
    ItemField.make (.region "pg" "Price: $10 only") exMetaPre = Except.ok exPreField ∧
    exPreField.procList = [.region "pg" "10 only"] := by
  refine ⟨?_, ?_, rfl, rfl⟩
  · intro h; simp [ExtractorFn.run, h]
  · intro t1 h; simp [ExtractorFn.run, h]

/-- Witness for C6: the short-circuit on marker-free text and the
composition equation on the specification's example text. -/
theorem C6_composed_extractor_witness :
    (ExtractorFn.composed .rawHtml "Price: $" "").run "pg" "no marker here"
      = Option.none ∧
    (ExtractorFn.composed .rawHtml "Price: $" "").run "pg" "Price: $10 only"
      = ExtractorFn.rawHtml.run "pg" (remove_tags "10 only") :=
  ⟨(C6_composed_extractor .rawHtml "Price: $" "" "pg" "no marker here").1 rfl,
   (C6_composed_extractor .rawHtml "Price: $" "" "pg" "Price: $10 only").2.1
     "10 only" rfl⟩

/-! ## Claim C7 -/

theorem normItem_pair (acc : List (NormField × Value)) (s : String) (v : Value) :
    normItem acc (.tup [.str s, v]) =
      Except.ok (acc ++ [(.descr [(.str "field", .str s),
                                  (.str "attribute", .str "content")], v)]) := rfl

theorem normFold_dict (ps : List (PKey × Value)) :
    ∀ acc, (∀ p ∈ ps, p.1.isStr = true) →
    (dictItems ps).foldlM normItem acc =
      Except.ok (acc ++ ps.map (fun p =>
        (NormField.descr [(.str "field", p.1.toValue),
                          (.str "attribute", .str "content")], p.2))) := by
  induction ps with
  | nil => intro acc _; simp [dictItems, List.foldlM, Pure.pure, Except.pure]
  | cons hd tl ih =>
    obtain ⟨k, v⟩ := hd
    intro acc hstr
    have hk := hstr (k, v) (List.mem_cons_self _ _)
    obtain ⟨s, hs⟩ : ∃ s, k = .str s := by
      cases k with
      | str s => exact ⟨s, rfl⟩
      | num n => simp [PKey.isStr] at hk
      | none => simp [PKey.isStr] at hk
    subst hs
    rw [show dictItems ((PKey.str s, v) :: tl)
        = .tup [.str s, v] :: dictItems tl from rfl]
    rw [List.foldlM_cons, normItem_pair]
    rw [show ∀ (x : List (NormField × Value))
          (g : List (NormField × Value) → Except PyErr (List (NormField × Value))),
          (Except.ok x : Except PyErr _) >>= g = g x from fun _ _ => rfl]
    rw [ih _ (fun p hp => hstr p (List.mem_cons_of_mem _ hp))]
    simp [PKey.toValue]

/-- C7: normalizing a mapping yields exactly its key/value pairs, each key
wrapped as a legacy annotation descriptor reading the element content, in
iteration order; permuting the mapping's iteration order permutes the
output, so the resulting pair set does not depend on it. -/
theorem C7_mapping_normalization :
    (∀ ps : List (PKey × Value), (∀ p ∈ ps, p.1.isStr = true) →
      normalizeData (.dict ps) = Except.ok (ps.map (fun p =>
        (NormField.descr [(.str "field", p.1.toValue),
                          (.str "attribute", .str "content")], p.2)))) ∧
    (∀ ps qs : List (PKey × Value), (∀ p ∈ ps, p.1.isStr = true) → ps.Perm qs →
      ∃ l1 l2, normalizeData (.dict ps) = Except.ok l1 ∧
        normalizeData (.dict qs) = Except.ok l2 ∧ l1.Perm l2) := by
  have main : ∀ ps : List (PKey × Value), (∀ p ∈ ps, p.1.isStr = true) →
      normalizeData (.dict ps) = Except.ok (ps.map (fun p =>
        (NormField.descr [(.str "field", p.1.toValue),
                          (.str "attribute", .str "content")], p.2))) := by
    intro ps h
    rw [show normalizeData (.dict ps) = (dictItems ps).foldlM normItem [] from rfl]
    rw [normFold_dict ps [] h]
    simp
  refine ⟨main, ?_⟩
  intro ps qs h hperm
  have hq : ∀ p ∈ qs, p.1.isStr = true := fun p hp => h p (hperm.mem_iff.2 hp)
  exact ⟨_, _, main ps h, main qs hq, hperm.map _⟩

/-- Witness for C7: the mapping `{name: Acme, price: $10}` and a permuted
iteration order of it. -/
theorem C7_mapping_normalization_witness :
    normalizeData (.dict [(.str "name", .str "Acme"), (.str "price", .str "$10")])
      = Except.ok
        [(.descr [(.str "field", .str "name"), (.str "attribute", .str "content")],
          .str "Acme"),
         (.descr [(.str "field", .str "price"), (.str "attribute", .str "content")],
          .str "$10")] ∧
    ∃ l1 l2,
      normalizeData (.dict [(.str "name", .str "Acme"), (.str "price", .str "$10")])
        = Except.ok l1 ∧
      normalizeData (.dict [(.str "price", .str "$10"), (.str "name", .str "Acme")])
        = Except.ok l2 ∧ l1.Perm l2 :=
  ⟨C7_mapping_normalization.1 _ (by intro p hp; fin_cases hp <;> rfl),
   C7_mapping_normalization.2 _ _ (by intro p hp; fin_cases hp <;> rfl)
     (List.Perm.swap _ _ _)⟩

/-! ## Claim C8 -/

/-- C8: a nested item appearing as a field during normalization is
flattened to its single child field — stored under the child's own id —
exactly when it has one plain field and the parent field's descriptor
equals that child's resolved extractor; a single-field nested item whose
descriptors differ, or one with several fields, stays a nested item stored
under its own name. -/
theorem C8_single_field_flattening (c : ItemProcessor) (k : PKey) (cf : ItemField)
    (v : Value) (schema : Option Schema) (mods : List (String × AdaptFn))
    (page : Option String) :
    (c.fields = [(k, .fld cf)] →
      ((c.descriptor = some cf.extractor →
        processFields schema mods page [(.item c, v)] =
          Except.ok [(keyOf (mget cf.meta "id"), .fld cf)]) ∧
       (c.descriptor ≠ some cf.extractor →
        processFields schema mods page [(.item c, v)] =
          Except.ok [(keyOf c.nameV, .item c)]))) ∧
    (c.fields.length ≠ 1 →
      processFields schema mods page [(.item c, v)] =
        Except.ok [(keyOf c.nameV, .item c)]) := by
  constructor
  · intro h
    constructor
    · intro hd
      simp [processFields, List.enum, List.enumFrom, List.foldlM, h, hd, pset, pget?,
            Pure.pure, Except.pure, Bind.bind, Except.bind]
    · intro hd
      simp [processFields, List.enum, List.enumFrom, List.foldlM, h, hd, pset, pget?,
            Pure.pure, Except.pure, Bind.bind, Except.bind]
  · intro hlen
    simp [processFields, List.enum, List.enumFrom, List.foldlM, hlen, pset, pget?,
          Pure.pure, Except.pure, Bind.bind, Except.bind]

/-- The single field of `exNested`. -/
def exNestedChild : ItemField :=
  match exNested.fields.head? with
  | some (_, .fld f) => f
  | _ => emptyField

/-- The single field of `exNestedPlain`. -/
def exNestedPlainChild : ItemField :=
  match exNestedPlain.fields.head? with
  | some (_, .fld f) => f
  | _ => emptyField

/-- Witness for C8: the schema-resolved nested item flattens to its child
under the child's id; the schema-free one and the two-field one stay
nested under their own names. -/
theorem C8_single_field_flattening_witness :
    processFields (some exSchema) [] Option.none [(.item exNested, .noneV)] =
      Except.ok [(keyOf (mget exNestedChild.meta "id"), .fld exNestedChild)] ∧
    processFields Option.none [] Option.none [(.item exNestedPlain, .noneV)] =
      Except.ok [(keyOf exNestedPlain.nameV, .item exNestedPlain)] ∧
    processFields Option.none [] Option.none [(.item exNestedTwo, .noneV)] =
      Except.ok [(keyOf exNestedTwo.nameV, .item exNestedTwo)] :=
  ⟨((C8_single_field_flattening exNested (.str "n1") exNestedChild .noneV
      (some exSchema) [] Option.none).1 rfl).1 rfl,
   ((C8_single_field_flattening exNestedPlain (.str "n1") exNestedPlainChild .noneV
      Option.none [] Option.none).1 rfl).2
     (fun hh => Option.noConfusion
       (show (Option.none : Option SlybotFieldDescriptor)
          = some exNestedPlainChild.extractor from hh)),
   (C8_single_field_flattening exNestedTwo (.str "w1") emptyField .noneV
      Option.none [] Option.none).2
     (by rw [show exNestedTwo.fields.length = 2 from rfl]; decide)⟩

/-! ## Claim C4 -/

theorem pget?_eq_none_of_not_mem {α : Type} (d : List (PKey × α)) (k : PKey)
    (h : k ∉ d.map Prod.fst) : pget? d k = Option.none := by
  induction d with
  | nil => rfl
  | cons hd tl ih =>
    obtain ⟨a, b⟩ := hd
    rw [List.map_cons] at h
    rw [pget?_cons, if_neg (fun hh => h (List.mem_cons.2 (Or.inl hh.symm)))]
    exact ih (fun hm => h (List.mem_cons_of_mem _ hm))

theorem mergeFieldsList_lookup (l : List (PKey × FieldEntry)) :
    ∀ (sf out : List (PKey × FieldEntry)), (l.map Prod.fst).Nodup →
    mergeFieldsList sf l = Except.ok out → ∀ k,
    (pget? l k = Option.none → pget? out k = pget? sf k) ∧
    (∀ b, pget? sf k = Option.none → pget? l k = some b → pget? out k = some b) ∧
    (∀ a b, pget? sf k = some a → pget? l k = some b →
      ∃ mv, mergeEntry a b = Except.ok mv ∧ pget? out k = some mv) := by
  induction l with
  | nil =>
    intro sf out _ h k
    rw [show mergeFieldsList sf [] = Except.ok sf from by rw [mergeFieldsList]] at h
    injection h with h1
    subst h1
    refine ⟨fun _ => rfl, ?_, ?_⟩
    · intro b _ hb; exact Option.noConfusion hb
    · intro a b _ hb; exact Option.noConfusion hb
  | cons hd tl ih =>
    obtain ⟨k0, f0⟩ := hd
    intro sf out hnd h k
    rw [List.map_cons, List.nodup_cons] at hnd
    have hnd2 := hnd.2
    have hk0tl : pget? tl k0 = Option.none := pget?_eq_none_of_not_mem tl k0 hnd.1
    simp only [mergeFieldsList] at h
    cases hsf : pget? sf k0 with
    | some e =>
      simp only [hsf] at h
      cases hme : mergeEntry e f0 with
      | error er =>
        simp only [hme, Bind.bind, Except.bind] at h
        exact Except.noConfusion h
      | ok mv =>
        simp only [hme, Bind.bind, Except.bind, Pure.pure, Except.pure] at h
        have IH := ih (pset sf k0 mv) out hnd2 h
        by_cases hk : k = k0
        · subst hk
          refine ⟨?_, ?_, ?_⟩
          · intro hnone
            rw [pget?_cons, if_pos rfl] at hnone
            exact Option.noConfusion hnone
          · intro b hsfk _
            rw [hsf] at hsfk
            exact Option.noConfusion hsfk
          · intro a b ha hb
            rw [hsf] at ha
            injection ha with hea
            subst hea
            rw [pget?_cons, if_pos rfl] at hb
            injection hb with heb
            subst heb
            refine ⟨mv, hme, ?_⟩
            rw [(IH k).1 hk0tl, pget?_pset, if_pos rfl]
        · have hother : pget? (pset sf k0 mv) k = pget? sf k := by
            rw [pget?_pset, if_neg hk]
          have hconsk : pget? ((k0, f0) :: tl) k = pget? tl k := by
            rw [pget?_cons, if_neg (fun hh => hk hh.symm)]
          refine ⟨?_, ?_, ?_⟩
          · intro hnone
            rw [hconsk] at hnone
            rw [(IH k).1 hnone, hother]
          · intro b hsfk hb
            rw [hconsk] at hb
            exact (IH k).2.1 b (by rw [hother]; exact hsfk) hb
          · intro a b ha hb
            rw [hconsk] at hb
            exact (IH k).2.2 a b (by rw [hother]; exact ha) hb
    | none =>
      simp only [hsf, Bind.bind, Except.bind, Pure.pure, Except.pure] at h
      have IH := ih (sf ++ [(k0, f0)]) out hnd2 h
      by_cases hk : k = k0
      · subst hk
        refine ⟨?_, ?_, ?_⟩
        · intro hnone
          rw [pget?_cons, if_pos rfl] at hnone
          exact Option.noConfusion hnone
        · intro b hsfk hb
          rw [pget?_cons, if_pos rfl] at hb
          injection hb with heb
          subst heb
          rw [(IH k).1 hk0tl, pget?_append_single, hsf]
          simp
        · intro a b ha _
          rw [hsf] at ha
          exact Option.noConfusion ha
      · have happ : pget? (sf ++ [(k0, f0)]) k = pget? sf k := by
          rw [pget?_append_single]
          cases hx : pget? sf k with
          | none => simp [if_neg (show ¬ k0 = k from fun hh => hk hh.symm)]
          | some x => simp
        have hconsk : pget? ((k0, f0) :: tl) k = pget? tl k := by
          rw [pget?_cons, if_neg (fun hh => hk hh.symm)]
        refine ⟨?_, ?_, ?_⟩
        · intro hnone
          rw [hconsk] at hnone
          rw [(IH k).1 hnone, happ]
        · intro b hsfk hb
          rw [hconsk] at hb
          exact (IH k).2.1 b (by rw [happ]; exact hsfk) hb
        · intro a b ha hb
          rw [hconsk] at hb
          exact (IH k).2.2 a b (by rw [happ]; exact ha) hb

/-- C4: after a successful `A.merge(B)` (a dict-shaped `B` has distinct
field ids), the merged field mapping is the union of both — a field id
present only in `A` keeps `A`'s entry, one present only in `B` is adopted
unchanged, and one present in both carries the recursive merge of the two
entries; in particular, merging the disjoint `title` and `price` items
dumps a record containing the fields of both. -/
theorem C4_merge_field_union (A B M : ItemProcessor)
    (hnd : (B.fields.map Prod.fst).Nodup)
    (h : mergeIP A B = Except.ok M) :
    ((∀ k, pget? B.fields k = Option.none → pget? M.fields k = pget? A.fields k) ∧
     (∀ k b, pget? A.fields k = Option.none → pget? B.fields k = some b →
       pget? M.fields k = some b) ∧
     (∀ k a b, pget? A.fields k = some a → pget? B.fields k = some b →
       ∃ mv, mergeEntry a b = Except.ok mv ∧ pget? M.fields k = some mv)) ∧
    (mergeIP exTitle exPrice = Except.ok exUnion ∧
     ipDumpE exUnion false =
       Except.ok [(.str "title", .list [.str "Acme"]),
                  (.str "price", .list [.str "10"])]) := by
  refine ⟨?_, rfl, rfl⟩
  obtain ⟨am, rid, sch, mods, page, anns, flds⟩ := A
  obtain ⟨am2, rid2, sch2, mods2, page2, anns2, flds2⟩ := B
  rw [mergeIP] at h
  cases hf : mergeFieldsList flds flds2 with
  | error e => simp [hf, Bind.bind, Except.bind] at h
  | ok flds1 =>
    simp only [hf, Bind.bind, Except.bind, Pure.pure, Except.pure,
               Except.ok.injEq] at h
    subst h
    have L := mergeFieldsList_lookup flds2 flds flds1
      (by simpa [ItemProcessor.fields] using hnd) hf
    exact ⟨fun k => (L k).1, fun k b => (L k).2.1 b, fun k a b => (L k).2.2 a b⟩

/-- The `price` entry of `exPrice`. -/
def exPriceFld : FieldEntry :=
  match pget? exPrice.fields (.str "p1") with
  | some e => e
  | Option.none => .fld emptyField

/-- Witness for C4: in the merged disjoint item, `title` keeps `A`'s entry
and `price` adopts `B`'s. -/
theorem C4_merge_field_union_witness :
    pget? exUnion.fields (.str "t1") = pget? exTitle.fields (.str "t1") ∧
    pget? exUnion.fields (.str "p1") = some exPriceFld :=
  ⟨((C4_merge_field_union exTitle exPrice exUnion (by decide) rfl).1).1
     (.str "t1") rfl,
   ((C4_merge_field_union exTitle exPrice exUnion (by decide) rfl).1).2.1
     (.str "p1") exPriceFld rfl rfl⟩

/-! ## Claim C2 -/

theorem processE_error_kind (f : ItemField) (er : PyErr)
    (h : f.processE = Except.error er) : er = PyErr.missingRequired := by
  simp only [ItemField.processE, ItemField.adaptStep] at h
  split at h
  · injection h with h1
    exact h1.symm
  · exact Except.noConfusion h

theorem adaptFold_empty (ads : List AdaptFn) (pg : Option String) :
    ads.foldl (fun vs a => if vs.isEmpty then vs else vs.map (a.run pg)) []
      = ([] : List Value) := by
  induction ads with
  | nil => rfl
  | cons a t ih => simpa [List.foldl_cons] using ih

theorem processE_required_empty (f : ItemField)
    (hreq : (mget f.meta "required").truthy = true) (hv : f.value = .str "") :
    f.processE = Except.error PyErr.missingRequired := by
  have hpv : f.procValues = [] := by
    simp only [ItemField.procValues, hv]
    rfl
  have hempty : f.procList = [] := by
    simp only [ItemField.procList, hpv]
    cases f.extractor.adapt <;> simp
  simp only [ItemField.processE, ItemField.adaptStep, hempty,
             adaptFold_empty f.adaptors f.htmlpage, hreq]
  rfl

theorem entryInfos_eq_map (l : List (PKey × FieldEntry)) :
    entryInfos l = l.map (fun p => entryInfo1 p.2) := by
  induction l with
  | nil => rfl
  | cons hd tl ih =>
    obtain ⟨k, fe⟩ := hd
    simp [entryInfos, ih]

theorem infoTriggers_of_triggersMR (fe : FieldEntry) (h : triggersMR fe) :
    infoTriggers (entryInfo1 fe) := by
  cases fe with
  | fld f =>
    obtain ⟨h1, h2, h3⟩ := h
    refine ⟨h1, ?_⟩
    rw [show (entryInfo1 (.fld f)).processed = (f.processE).map Value.list from rfl,
        processE_required_empty f h2 h3]
    rfl
  | item c => exact absurd h (by simp [triggersMR])

theorem infoSafe_of_safeEntry (fe : FieldEntry) (h : safeEntry fe) :
    infoSafe (entryInfo1 fe) := by
  cases fe with
  | fld f =>
    refine ⟨fun n _ _ _ => rfl, ?_, h⟩
    intro er her
    have hfe : f.processE = Except.error er := by
      cases hp : f.processE with
      | ok r =>
        rw [show (entryInfo1 (.fld f)).processed = (f.processE).map Value.list
            from rfl, hp] at her
        exact Except.noConfusion her
      | error e2 =>
        rw [show (entryInfo1 (.fld f)).processed = (f.processE).map Value.list
            from rfl, hp] at her
        injection her with h2
        exact congrArg Except.error h2
    exact processE_error_kind f er hfe
  | item c =>
    obtain ⟨hm, ⟨r, hr⟩, hkw⟩ := h
    refine ⟨?_, ?_, hkw⟩
    · intro n hn h1 h2
      exact (hm n hn h1 h2).elim
    · intro er her
      rw [show (entryInfo1 (.item c)).processed = (ipDumpE c false).map Value.dict
          from rfl, hr] at her
      exact Except.noConfusion her

theorem dumpEntryMain_error (sid : Option String) (idx : Nat) (e : EntryInfo)
    (acc : List (AKey × Value)) (macc : List (PKey × List (PKey × Value)))
    (er : PyErr)
    (hs2 : ∀ e2, e.processed = Except.error e2 → e2 = PyErr.missingRequired)
    (hkw : e.metaPairs.all (fun p => kwOk p.1) = true)
    (h : dumpEntryMain sid idx e acc macc = Except.error er) :
    er = PyErr.missingRequired := by
  unfold dumpEntryMain at h
  split at h
  next e2 heq =>
    injection h with h2
    rw [← h2]
    exact hs2 e2 heq
  next v heq =>
    split at h
    · exact Except.noConfusion h
    · split at h
      all_goals try split at h
      all_goals
        first
        | exact Except.noConfusion h
        | exact absurd hkw (by assumption)

theorem dumpEntryStep_triggers (sid : Option String) (idx : Nat) (e : EntryInfo)
    (acc : List (AKey × Value)) (macc : List (PKey × List (PKey × Value)))
    (h : infoTriggers e) :
    dumpEntryStep sid idx e acc macc = Except.error PyErr.missingRequired := by
  obtain ⟨h1, h2⟩ := h
  unfold dumpEntryStep
  cases hn : e.nameV.strLike with
  | none => simp [dumpEntryMain, h2]
  | some n =>
    unfold notMarker at h1
    rw [hn] at h1
    simp only [Bool.and_eq_true, Bool.not_eq_true'] at h1
    simp [h1.1, h1.2, dumpEntryMain, h2]

theorem dumpEntryStep_safe (sid : Option String) (idx : Nat) (e : EntryInfo)
    (acc : List (AKey × Value)) (macc : List (PKey × List (PKey × Value)))
    (er : PyErr) (hsafe : infoSafe e)
    (h : dumpEntryStep sid idx e acc macc = Except.error er) :
    er = PyErr.missingRequired := by
  obtain ⟨hs1, hs2, hs3⟩ := hsafe
  unfold dumpEntryStep at h
  cases hn : e.nameV.strLike with
  | none =>
    rw [hn] at h
    exact dumpEntryMain_error sid idx e acc macc er hs2 hs3 h
  | some n =>
    rw [hn] at h
    cases hsh : strStarts n "#" with
    | true => simp only [hsh, if_true] at h; exact Except.noConfusion h
    | false =>
      cases hsu : strStarts n "_" with
      | false =>
        simp only [hsh, hsu, Bool.false_eq_true, if_false] at h
        exact dumpEntryMain_error sid idx e acc macc er hs2 hs3 h
      | true =>
        have hrv := hs1 n hn hsu hsh
        cases hv : e.rawValue with
        | none => rw [hv] at hrv; simp at hrv
        | some v =>
          simp only [hsh, hsu, hv, Bool.false_eq_true, if_false, if_true] at h
          exact Except.noConfusion h

theorem dumpLoop_mr (sid : Option String) (entries : List (Nat × EntryInfo)) :
    ∀ (acc : List (AKey × Value)) (macc : List (PKey × List (PKey × Value))),
    (∃ q ∈ entries, infoTriggers q.2) →
    (∀ q ∈ entries, infoSafe q.2) →
    dumpLoop sid entries acc macc = Except.error PyErr.missingRequired := by
  induction entries with
  | nil =>
    intro acc macc hsome _
    obtain ⟨q, hq, _⟩ := hsome
    exact absurd hq (List.not_mem_nil q)
  | cons hd tl ih =>
    obtain ⟨idx, e⟩ := hd
    intro acc macc hsome hall
    cases hstep : dumpEntryStep sid idx e acc macc with
    | error er =>
      have her : er = PyErr.missingRequired :=
        dumpEntryStep_safe sid idx e acc macc er
          (hall (idx, e) (List.mem_cons_self _ _)) hstep
      simp only [dumpLoop, hstep, Bind.bind, Except.bind, her]
    | ok st =>
      have htl : ∃ q ∈ tl, infoTriggers q.2 := by
        obtain ⟨q, hq, ht⟩ := hsome
        rcases List.mem_cons.1 hq with rfl | hq2
        · rw [dumpEntryStep_triggers sid idx e acc macc ht] at hstep
          exact Except.noConfusion hstep
        · exact ⟨q, hq2, ht⟩
      simp only [dumpLoop, hstep, Bind.bind, Except.bind]
      exact ih st.1 st.2 htl (fun q hq => hall q (List.mem_cons_of_mem _ hq))

theorem mem_enumFrom_of_mem {α : Type} {l : List α} {x : α} (h : x ∈ l) :
    ∀ n : Nat, ∃ i, (i, x) ∈ List.enumFrom n l := by
  induction l with
  | nil => cases h
  | cons a t ih =>
    intro n
    rcases List.mem_cons.1 h with rfl | h2
    · exact ⟨n, List.mem_cons_self _ _⟩
    · obtain ⟨i, hi⟩ := ih h2 (n + 1)
      exact ⟨i, List.mem_cons_of_mem _ hi⟩

theorem snd_mem_of_mem_enumFrom {α : Type} {l : List α} {q : Nat × α} :
    ∀ n : Nat, q ∈ List.enumFrom n l → q.2 ∈ l := by
  induction l with
  | nil => intro n h; cases h
  | cons a t ih =>
    intro n h
    rcases List.mem_cons.1 h with rfl | h2
    · exact List.mem_cons_self _ _
    · exact List.mem_cons_of_mem _ (ih (n + 1) h2)

/-- C2 (amended): for every item whose fields all have ordinary display
behavior (plain fields and nested items whose per-field metadata spreads
into the metadata `dict(...)` without a keyword clash, nested items
neither sitting on the `u'_'` meta channel nor failing their own dump)
and that owns a plain field with an ordinary name marked required whose
raw value is the empty string, `dump()` returns the empty record; and —
the recovery half on the specification's scenario — merging that
single-field required item with one contributing `10.99` under the same
field id yields an item whose `dump()` succeeds and includes the field. -/
theorem C2_required_empty_field (ip : ItemProcessor) (m : Bool)
    (hsome : ∃ p ∈ ip.fields, triggersMR p.2)
    (hall : ∀ p ∈ ip.fields, safeEntry p.2) :
    ipDumpE ip m = Except.ok [] ∧
    mergeIP exReq exReqB = Except.ok exReqM ∧
    ipDumpE exReqM false = Except.ok [(.str "price", .list [.str "10.99"])] ∧
    pget? [((PKey.str "price" : PKey), Value.list [.str "10.99"])] (.str "price")
      = some (.list [.str "10.99"]) := by
  refine ⟨?_, rfl, rfl, rfl⟩
  obtain ⟨am, rid, sch, mods, page, anns, flds⟩ := ip
  have hsome2 : ∃ q ∈ (entryInfos flds).enum, infoTriggers q.2 := by
    obtain ⟨p, hp, ht⟩ := hsome
    have hm : entryInfo1 p.2 ∈ entryInfos flds := by
      rw [entryInfos_eq_map]
      exact List.mem_map_of_mem _ hp
    obtain ⟨i, hi⟩ := mem_enumFrom_of_mem hm 0
    exact ⟨(i, entryInfo1 p.2), hi, infoTriggers_of_triggersMR p.2 ht⟩
  have hall2 : ∀ q ∈ (entryInfos flds).enum, infoSafe q.2 := by
    intro q hq
    have hq2 : q.2 ∈ entryInfos flds := snd_mem_of_mem_enumFrom 0 hq
    rw [entryInfos_eq_map] at hq2
    obtain ⟨p, hp, hpe⟩ := List.mem_map.1 hq2
    rw [← hpe]
    exact infoSafe_of_safeEntry p.2 (hall p hp)
  have hraw : rawDumpE (.mk am rid sch mods page anns flds) m
      = Except.error PyErr.missingRequired := by
    rw [rawDumpE]
    unfold dumpAssemble
    simp only [dumpLoop_mr _ _ [] [] hsome2 hall2, Bind.bind, Except.bind]
  rw [show ipDumpE (.mk am rid sch mods page anns flds) m
      = dumpCatch (rawDumpE (.mk am rid sch mods page anns flds) m) from rfl, hraw]
  rfl

/-- The keyword clash of the per-field metadata `dict(...)`: a nested item
whose (unfiltered) annotation metadata already carries a `name` key makes
the owning item's `dump()` raise `TypeError`, which the dump boundary does
not catch. -/
theorem dump_metadata_keyword_clash :
    ItemProcessor.make exAnn (.s "rkp") (.list [.item exKwChild]) []
      = Except.ok exKwParent ∧
    ipDumpE exKwParent false
      = Except.error (.typeError "invalid dict keyword argument") :=
  ⟨rfl, rfl⟩

/-- C2 counterexample: an item owning a required field with raw value `""`
hidden behind a `u'#'` processing name, next to an ordinary `price` field —
its `dump()` returns the non-empty `price` record, not `{}`. -/
theorem C2_counterexample :
    ItemProcessor.make exAnn (.s "rh") exHashData [] = Except.ok exHash ∧
    ipDumpE exHash false = Except.ok [(.str "price", .list [.str "10"])] ∧
    Except.ok [((PKey.str "price" : PKey), Value.list [.str "10"])]
      ≠ (Except.ok [] : Except PyErr (List (PKey × Value))) := by
  refine ⟨rfl, rfl, ?_⟩
  intro h
  injection h with h1
  exact List.noConfusion h1

/-- Witness for C2: the directly-built single-field required item. -/
theorem C2_required_empty_field_witness :
    ipDumpE wIP false = Except.ok [] :=
  (C2_required_empty_field wIP false
    ⟨(.str "f1", .fld wF), List.mem_cons_self _ _, rfl, rfl, rfl⟩
    (by
      intro p hp
      rcases List.mem_cons.1 hp with rfl | hp2
      · rfl
      · exact absurd hp2 (List.not_mem_nil p))).1

end Slybot
